import Mathlib

/-!
# mixin-kit-go: transfer orchestration of `ClientWrapper`

A shallow embedding of `mixin_client_wrapper.go`.

* Amounts are `decimal.Decimal` values.  `Add`, `Sub` and the comparisons of that
  library are exact, and the wrapper uses nothing else, so an amount is modelled as an
  integer number of the smallest unit (`Int`); negative amounts are values of the type.
* A Go slice of pointers to outputs is a `List SafeUtxo`.
* `mixinnet.Hash` is modelled by the text its `String()` method prints (64 hexadecimal
  digits); `HasValue()` is false exactly for the all-zero hash.
* The remote ledger (the embedded `*mixin.Client`) is an arbitrary state machine
  `Client σ τ`: every call maps the ledger state to a result and a new state.  Every call
  the wrapper makes on it, and every `Lock`/`Unlock` of `transferMutex`, is appended to a
  chronological trace.
* `time.Sleep` has no effect on the values computed and is left out.
-/

namespace MixinKit

/-! ## Constants and errors -/

/-- Constant `AGGREGRATE_UTXO_MEMO`. -/
def AGGREGRATE_UTXO_MEMO : String := "arrgegate utxos"

/-- Constant `MAX_UTXO_NUM`. -/
def MAX_UTXO_NUM : Nat := 255

/-- The error values a wrapper method can return: the five package-level values created
with `errors.New`, and `External msg` for any error value produced by the SDK, which
cannot be one of the five (they are variables of this package, compared by identity). -/
inductive Error where
  | ErrConfigNil
  | ErrNotEnoughUtxos
  | ErrInscriptionNotFound
  | ErrMultInscriptionsFound
  | ErrMaxUtxoExceeded
  | External (msg : String)
deriving DecidableEq, Repr

/-! ## Data model -/

/-- Type `mixinnet.Hash`, represented by its hexadecimal text. -/
structure Hash where
  hex : String
deriving DecidableEq, Repr

/-- The all-zero hash, the value of an output without inscription. -/
def Hash.zero : Hash :=
  ⟨"0000000000000000000000000000000000000000000000000000000000000000"⟩

/-- Method `Hash.HasValue`: the hash differs from the all-zero hash. -/
def Hash.HasValue (h : Hash) : Bool := decide (h ≠ Hash.zero)

/-- Method `Hash.String`. -/
def Hash.String (h : Hash) : String := h.hex

/-- The fields of `mixin.SafeUtxo` the wrapper reads, and the output identifier. -/
structure SafeUtxo where
  OutputID : String
  Amount : Int
  InscriptionHash : Hash
deriving DecidableEq, Repr

/-- Type `mixin.MixAddress` as built by `RequireNewMixAddress(members, threshold)`. -/
structure MixAddress where
  Members : List String
  Threshold : Nat
deriving DecidableEq, Repr

/-- Function `mixin.RequireNewMixAddress` on arguments it accepts (every member a UUID,
`1 <= threshold <= len(members)`), where it is a deterministic function of its
arguments.  On other arguments the SDK function panics; that panic is left out of the
model, so a run with such a member describes the code only up to this call. -/
def RequireNewMixAddress (members : List String) (threshold : Nat) : MixAddress :=
  ⟨members, threshold⟩

/-- Type `mixin.TransactionOutput`. -/
structure TransactionOutput where
  Address : MixAddress
  Amount : Int
deriving DecidableEq, Repr

/-- Type `mixin.SafeTransactionBuilder` as the wrapper fills it: the inputs given to
`NewSafeTransactionBuilder` and the memo. -/
structure SafeTransactionBuilder where
  Inputs : List SafeUtxo
  Memo : String
deriving DecidableEq, Repr

/-- Function `mixin.NewSafeTransactionBuilder`. -/
def NewSafeTransactionBuilder (utxos : List SafeUtxo) : SafeTransactionBuilder :=
  ⟨utxos, ""⟩

/-- Type `mixin.SafeListUtxoOption`; `Limit = 0` is the unset field. -/
structure SafeListUtxoOption where
  Asset : String
  State : String
  Threshold : Nat
  Limit : Nat
deriving DecidableEq, Repr

/-- Constant `mixin.SafeUtxoStateUnspent`. -/
def SafeUtxoStateUnspent : String := "unspent"

/-- Type `mixin.SafeTransactionRequestInput`. -/
structure SafeTransactionRequestInput where
  RequestID : String
  RawTransaction : String
deriving DecidableEq, Repr

/-- The fields of `mixin.SafeTransactionRequest` used here. -/
structure SafeTransactionRequest where
  RequestID : String
  TransactionHash : String
  Views : List String
deriving DecidableEq, Repr

/-- Type `TransferOneRequest`. -/
structure TransferOneRequest where
  RequestId : String
  AssetId : String
  Member : String
  Amount : Int
  Memo : String
deriving DecidableEq, Repr

/-- Type `MemberAmount`. -/
structure MemberAmount where
  Member : List String
  Amount : Int
deriving DecidableEq, Repr

/-- Type `TransferManyRequest`. -/
structure TransferManyRequest where
  RequestId : String
  AssetId : String
  MemberAmount : List MemberAmount
  Memo : String
deriving DecidableEq, Repr

/-- Type `InscriptionTransferRequest`. -/
structure InscriptionTransferRequest where
  RequestId : String
  AssetId : String
  Inscription : String
  Memo : String
  Member : String
deriving DecidableEq, Repr

deriving instance DecidableEq for Except

/-! ## Pure parts -/

/-- Function `GenUuidFromStrings`: the strings are concatenated in order and the result
is given to `uuid.NewV5(uuid.NamespaceOID, ·).String()`, the parameter `newV5`. -/
def GenUuidFromStrings (newV5 : String → String) (strs : List String) : String :=
  newV5 (strs.foldl (fun str s => str ++ s) "")

/-- Function `strconv.Itoa` on the non-negative loop index. -/
def Itoa (i : Nat) : String := toString i

/-- The Go slice expression `s[start:end]`; the bounds are in range at every use below
(`buildTransferMany_bounds`). -/
def slice {α : Type} (s : List α) (start stop : Nat) : List α :=
  (s.drop start).take (stop - start)

/-- Function `buildTransferMany`: `result` has `(len + 254) / 255` entries and entry `i`
is `memberAmounts[i*255 : min((i+1)*255, len)]`. -/
def buildTransferMany (memberAmounts : List MemberAmount) : List (List MemberAmount) :=
  (List.range ((memberAmounts.length + MAX_UTXO_NUM - 1) / MAX_UTXO_NUM)).map fun i =>
    let start := i * MAX_UTXO_NUM
    let stop := (i + 1) * MAX_UTXO_NUM
    let stop := if stop > memberAmounts.length then memberAmounts.length else stop
    slice memberAmounts start stop

/-- Sum of the amounts of a list of outputs. -/
def sumAmount (utxos : List SafeUtxo) : Int :=
  (utxos.map fun u => u.Amount).sum

/-- The loop of `SyncArrgegateUtxos` that fills `utxoSlice` and `utxoSliceAmount`: every
listed output without inscription is appended and its amount added. -/
def aggregateSlice : List SafeUtxo → List SafeUtxo → Int → List SafeUtxo × Int
  | [], utxoSlice, utxoSliceAmount => (utxoSlice, utxoSliceAmount)
  | u :: rest, utxoSlice, utxoSliceAmount =>
    if u.InscriptionHash.HasValue then aggregateSlice rest utxoSlice utxoSliceAmount
    else aggregateSlice rest (utxoSlice ++ [u]) (utxoSliceAmount + u.Amount)

/-- The removal loop of `TransferOne`, from loop index `i` on:
`for ; i < len(utxos); i++ { if utxos[i] has an inscription
{ utxos = append(utxos[:i], utxos[i+1:]...); i-- } }`. -/
def removeInscriptions (utxos : List SafeUtxo) (i : Nat) : List SafeUtxo :=
  match h : utxos[i]? with
  | none => utxos
  | some u =>
    if u.InscriptionHash.HasValue then
      removeInscriptions (utxos.take i ++ utxos.drop (i + 1)) i
    else
      removeInscriptions utxos (i + 1)
termination_by utxos.length - i
decreasing_by
  all_goals
    have hi : i < utxos.length := by
      rcases Nat.lt_or_ge i utxos.length with hlt | hge
      · exact hlt
      · rw [List.getElem?_eq_none hge] at h; cases h
    first
      | omega
      | (simp only [List.length_append, List.length_take, List.length_drop]; omega)

/-- The call `sort.Slice(utxos, less)` with `less(i, j) = utxos[i].Amount <= utxos[j].Amount`:
the outputs in ascending order of amount.  The order `sort.Slice` leaves among outputs
of equal amount is not fixed by the library and may differ from the one here; the
statements below use only that the result is ascending and holds the same outputs, or
are about listings with distinct amounts. -/
def sortByAmount (utxos : List SafeUtxo) : List SafeUtxo :=
  utxos.insertionSort fun a b => a.Amount ≤ b.Amount

/-- The expression `utxos[0].Amount` of the selection loop; the loop body only runs when
`utxos` has an element. -/
def firstAmount (utxos : List SafeUtxo) : Int :=
  match utxos with
  | [] => 0
  | u :: _ => u.Amount

/-- The selection loop of `TransferOne` and `TransferMany` over the remaining outputs,
with input cap `cap` (`MAX_UTXO_NUM` in the source), the whole sorted list `utxos` and
the requested amount `target`:
the output is added to `useAmount` and appended to `useUtxos`; if `useUtxos` is then
longer than the cap its first element is dropped and `utxos[0].Amount` is subtracted;
the loop stops as soon as `useAmount >= target`. -/
def selectLoop (cap : Nat) (utxos : List SafeUtxo) (target : Int) :
    List SafeUtxo → Int → List SafeUtxo → Int × List SafeUtxo
  | [], useAmount, useUtxos => (useAmount, useUtxos)
  | utxo :: rest, useAmount, useUtxos =>
    let useAmount := useAmount + utxo.Amount
    let useUtxos := useUtxos ++ [utxo]
    let over := decide (useUtxos.length > cap)
    let useUtxos := if over then useUtxos.drop 1 else useUtxos
    let useAmount := if over then useAmount - firstAmount utxos else useAmount
    if useAmount ≥ target then (useAmount, useUtxos)
    else selectLoop cap utxos target rest useAmount useUtxos

/-- Lines `sort.Slice` to the final `LessThan` check, shared by `TransferOne` and
`TransferMany`: sort, run the selection loop from `useAmount = 0` and an empty
`useUtxos`, fail with `ErrNotEnoughUtxos` when `useAmount < target`, otherwise give
`useUtxos`, the argument of `NewSafeTransactionBuilder`. -/
def selectUtxos (utxos : List SafeUtxo) (target : Int) : Except Error (List SafeUtxo) :=
  let utxos := sortByAmount utxos
  let r := selectLoop MAX_UTXO_NUM utxos target utxos 0 []
  if r.1 < target then .error .ErrNotEnoughUtxos else .ok r.2

/-- The part of `TransferOne` between the listing and the builder: the empty listing
fails, the outputs with inscription are removed in place, then the selection runs. -/
def TransferOne.selectUtxos (utxos : List SafeUtxo) (amount : Int) :
    Except Error (List SafeUtxo) :=
  if utxos.length = 0 then .error .ErrNotEnoughUtxos
  else MixinKit.selectUtxos (removeInscriptions utxos 0) amount

/-- The loop of `TransferMany` that adds up the amounts of the recipients. -/
def totalAmount (memberAmount : List MemberAmount) : Int :=
  memberAmount.foldl (fun total item => total + item.Amount) 0

/-- The part of `TransferMany` between the listing and the builder: the empty listing
fails, then the selection runs on the listing as it is. -/
def TransferMany.selectUtxos (utxos : List SafeUtxo) (memberAmount : List MemberAmount) :
    Except Error (List SafeUtxo) :=
  if utxos.length = 0 then .error .ErrNotEnoughUtxos
  else MixinKit.selectUtxos utxos (totalAmount memberAmount)

/-- The filtering loop of `InscriptionTransfer` with `remaining` iterations left, at index
`i`: `for i := range utxos` fixes the number of iterations when the loop starts, while
`utxos[i]` in the body reads the variable, which a match replaces by a one-element
slice.  An index outside the current slice is a run-time panic, the result `none`. -/
def inscriptionLoop (inscription : String) :
    Nat → Nat → List SafeUtxo → Option (List SafeUtxo)
  | 0, _, utxos => some utxos
  | remaining + 1, i, utxos =>
    match utxos[i]? with
    | none => none
    | some u =>
      if u.InscriptionHash.String = inscription then
        inscriptionLoop inscription remaining (i + 1) [u]
      else
        inscriptionLoop inscription remaining (i + 1) utxos

/-! ## The ledger client, the trace and the effectful methods -/

/-- One entry of the trace: a `Lock` or `Unlock` of `transferMutex`, or a call on the
embedded ledger client with its arguments. -/
inductive Event where
  | Lock
  | Unlock
  | SafeListUtxos (opt : SafeListUtxoOption)
  | MakeTransaction (b : SafeTransactionBuilder) (outputs : List TransactionOutput)
  | SafeCreateTransactionRequest (input : SafeTransactionRequestInput)
  | SafeSubmitTransactionRequest (input : SafeTransactionRequestInput)
  | SafeReadTransactionRequest (requestId : String)
deriving DecidableEq, Repr

/-- The embedded `*mixin.Client` and the package functions of the SDK the wrapper uses,
over a ledger state `σ` and a transaction type `τ` (`mixinnet.Transaction`).  A failing
call gives the message of its error.  `RandomTraceID` draws from the state;
`Dump` and `SafeSignTransaction` (with the spend key of the wrapper) do not touch it. -/
structure Client (σ τ : Type) where
  ClientID : String
  RandomTraceID : σ → String × σ
  SafeListUtxos : SafeListUtxoOption → σ → Except String (List SafeUtxo) × σ
  MakeTransaction :
    SafeTransactionBuilder → List TransactionOutput → σ → Except String τ × σ
  Dump : τ → Except String String
  SafeCreateTransactionRequest :
    SafeTransactionRequestInput → σ → Except String SafeTransactionRequest × σ
  SafeSignTransaction : τ → List String → Except String τ
  SafeSubmitTransactionRequest :
    SafeTransactionRequestInput → σ → Except String SafeTransactionRequest × σ
  SafeReadTransactionRequest : String → σ → Except String SafeTransactionRequest × σ

/-- The ledger state together with the trace of events so far, oldest first. -/
structure World (σ : Type) where
  ledger : σ
  trace : List Event
deriving DecidableEq, Repr

/-- How a method ends: it returns a value, returns an error, panics, or is still inside
the aggregation loop when the iteration budget of the model is used up. -/
inductive Outcome (α : Type) where
  | ok (a : α)
  | err (e : Error)
  | panicked
  | unfinished
deriving DecidableEq, Repr

/-- A method body: from a world to an outcome and the world it leaves. -/
def Prog (σ α : Type) : Type := World σ → Outcome α × World σ

/-- Sequencing: the rest runs only after a normal return. -/
def Prog.bind {σ α β : Type} (p : Prog σ α) (f : α → Prog σ β) : Prog σ β := fun w =>
  match p w with
  | (.ok a, w1) => f a w1
  | (.err e, w1) => (.err e, w1)
  | (.panicked, w1) => (.panicked, w1)
  | (.unfinished, w1) => (.unfinished, w1)

instance {σ : Type} : Monad (Prog σ) where
  pure a := fun w => (.ok a, w)
  bind := Prog.bind

/-- Statement `return nil, e` for a package-level error value. -/
def fail {σ α : Type} (e : Error) : Prog σ α := fun w => (.err e, w)

/-- A run-time panic. -/
def panic {σ α : Type} : Prog σ α := fun w => (.panicked, w)

/-- A call on the ledger client: the event is recorded, the state updated, and an error
of the call is returned to the caller of the method. -/
def call {σ α : Type} (ev : Event) (f : σ → Except String α × σ) : Prog σ α := fun w =>
  let r := f w.ledger
  let w1 : World σ := ⟨r.2, w.trace ++ [ev]⟩
  match r.1 with
  | .ok a => (.ok a, w1)
  | .error msg => (.err (.External msg), w1)

/-- A call whose error is discarded (`utxos, _ = c.SafeListUtxos(...)`): on error the SDK
returns a nil slice. -/
def callIgnoringError {σ α : Type} (ev : Event) (f : σ → Except String (List α) × σ) :
    Prog σ (List α) := fun w =>
  let r := f w.ledger
  let w1 : World σ := ⟨r.2, w.trace ++ [ev]⟩
  match r.1 with
  | .ok a => (.ok a, w1)
  | .error _ => (.ok [], w1)

/-- A function of the SDK that does not touch the ledger; its error is returned. -/
def lift {σ α : Type} (r : Except String α) : Prog σ α := fun w =>
  match r with
  | .ok a => (.ok a, w)
  | .error msg => (.err (.External msg), w)

/-- Function `mixin.RandomTraceID`. -/
def randomTraceID {σ τ : Type} (c : Client σ τ) : Prog σ String := fun w =>
  let r := c.RandomTraceID w.ledger
  (.ok r.1, ⟨r.2, w.trace⟩)

/-- Statements `transferMutex.Lock(); defer transferMutex.Unlock()` around the rest of a
method: the deferred unlock runs on return and on panic. -/
def withLock {σ α : Type} (body : Prog σ α) : Prog σ α := fun w =>
  match body ⟨w.ledger, w.trace ++ [.Lock]⟩ with
  | (.unfinished, w1) => (.unfinished, w1)
  | (r, w1) => (r, ⟨w1.ledger, w1.trace ++ [.Unlock]⟩)

/-- The listing options of `SyncArrgegateUtxos` (no limit set). -/
def listOption (assetId : String) : SafeListUtxoOption :=
  ⟨assetId, SafeUtxoStateUnspent, 1, 0⟩

/-- The listing options of the transfer methods (`Limit: 500`). -/
def listOption500 (assetId : String) : SafeListUtxoOption :=
  ⟨assetId, SafeUtxoStateUnspent, 1, 500⟩

/-- Constant `defaultMaxRetryTimes` of `SyncArrgegateUtxos`. -/
def defaultMaxRetryTimes : Nat := 3

/-- The read loop of `SyncArrgegateUtxos` entered with `retryTimes`: it leaves at once
when `retryTimes >= defaultMaxRetryTimes`; otherwise it reads the request once, returns
the error of the read from the method, and leaves the loop when the read succeeds. -/
def SyncArrgegateUtxos.readLoop {σ τ : Type} (c : Client σ τ) (requestId : String)
    (retryTimes : Nat) : Prog σ Unit :=
  if retryTimes ≥ defaultMaxRetryTimes then pure ()
  else do
    let _ ← call (.SafeReadTransactionRequest requestId)
      (c.SafeReadTransactionRequest requestId)
    pure ()

/-- The `for` loop of `SyncArrgegateUtxos` run for at most `fuel` iterations. -/
def SyncArrgegateUtxos.loop {σ τ : Type} (c : Client σ τ) (assetId : String) :
    Nat → Prog σ (List SafeUtxo)
  | 0 => fun w => (.unfinished, w)
  | fuel + 1 => do
    let requestId ← randomTraceID c
    let utxos ← call (.SafeListUtxos (listOption assetId))
      (c.SafeListUtxos (listOption assetId))
    if utxos.length ≤ MAX_UTXO_NUM then
      pure utxos
    else do
      let r := aggregateSlice utxos [] 0
      let b : SafeTransactionBuilder :=
        { NewSafeTransactionBuilder r.1 with Memo := AGGREGRATE_UTXO_MEMO }
      let outputs : List TransactionOutput :=
        [{ Address := RequireNewMixAddress [c.ClientID] 1, Amount := r.2 }]
      let tx ← call (.MakeTransaction b outputs) (c.MakeTransaction b outputs)
      let raw ← lift (c.Dump tx)
      let request ← call (.SafeCreateTransactionRequest ⟨requestId, raw⟩)
        (c.SafeCreateTransactionRequest ⟨requestId, raw⟩)
      let tx ← lift (c.SafeSignTransaction tx request.Views)
      let signedRaw ← lift (c.Dump tx)
      let _ ← call (.SafeSubmitTransactionRequest ⟨requestId, signedRaw⟩)
        (c.SafeSubmitTransactionRequest ⟨requestId, signedRaw⟩)
      SyncArrgegateUtxos.readLoop c requestId 0
      SyncArrgegateUtxos.loop c assetId fuel

/-- Method `SyncArrgegateUtxos`, its loop bounded by `fuel` iterations. -/
def SyncArrgegateUtxos {σ τ : Type} (c : Client σ τ) (fuel : Nat) (assetId : String) :
    Prog σ (List SafeUtxo) :=
  withLock (SyncArrgegateUtxos.loop c assetId fuel)

/-- Steps 2 to 6 shared by the three transfer methods: `MakeTransaction` on the builder
and the outputs, `Dump`, `SafeCreateTransactionRequest`, `SafeSignTransaction`, `Dump`,
`SafeSubmitTransactionRequest`, `SafeReadTransactionRequest`; the first error is
returned. -/
def buildAndSubmit {σ τ : Type} (c : Client σ τ) (b : SafeTransactionBuilder)
    (outputs : List TransactionOutput) (requestId : String) :
    Prog σ SafeTransactionRequest := do
  let tx ← call (.MakeTransaction b outputs) (c.MakeTransaction b outputs)
  let raw ← lift (c.Dump tx)
  let request ← call (.SafeCreateTransactionRequest ⟨requestId, raw⟩)
    (c.SafeCreateTransactionRequest ⟨requestId, raw⟩)
  let tx ← lift (c.SafeSignTransaction tx request.Views)
  let signedRaw ← lift (c.Dump tx)
  let _ ← call (.SafeSubmitTransactionRequest ⟨requestId, signedRaw⟩)
    (c.SafeSubmitTransactionRequest ⟨requestId, signedRaw⟩)
  call (.SafeReadTransactionRequest requestId) (c.SafeReadTransactionRequest requestId)

/-- The loop `for i := 0; i < 3 && len(utxos) == 0; i++` of `TransferOne` with `n`
iterations left: list again, stop on a non-empty listing. -/
def TransferOne.relist {σ τ : Type} (c : Client σ τ) (assetId : String) :
    Nat → List SafeUtxo → Prog σ (List SafeUtxo)
  | 0, utxos => pure utxos
  | n + 1, utxos =>
    if utxos.length = 0 then do
      let utxos ← callIgnoringError (.SafeListUtxos (listOption500 assetId))
        (c.SafeListUtxos (listOption500 assetId))
      if utxos.length > 0 then pure utxos
      else TransferOne.relist c assetId n utxos
    else pure utxos

/-- Method `TransferOne` from the check of the empty listing on, given the listing
`utxos` that reached it. -/
def TransferOne.afterListing {σ τ : Type} (c : Client σ τ) (req : TransferOneRequest)
    (utxos : List SafeUtxo) : Prog σ SafeTransactionRequest :=
  match TransferOne.selectUtxos utxos req.Amount with
  | .error e => fail e
  | .ok useUtxos =>
    let b : SafeTransactionBuilder := { NewSafeTransactionBuilder useUtxos with Memo := req.Memo }
    let txOutout : TransactionOutput :=
      { Address := RequireNewMixAddress [req.Member] 1, Amount := req.Amount }
    buildAndSubmit c b [txOutout] req.RequestId

/-- Method `TransferOne`. -/
def TransferOne {σ τ : Type} (c : Client σ τ) (fuel : Nat) (req : TransferOneRequest) :
    Prog σ SafeTransactionRequest := do
  let utxos ← SyncArrgegateUtxos c fuel req.AssetId
  withLock do
    let utxos ← TransferOne.relist c req.AssetId 3 utxos
    TransferOne.afterListing c req utxos

/-- The loop `for len(utxos) == 0 && retryCount < 3` of `TransferMany` with `n` iterations
left: list again. -/
def TransferMany.relist {σ τ : Type} (c : Client σ τ) (assetId : String) :
    Nat → List SafeUtxo → Prog σ (List SafeUtxo)
  | 0, utxos => pure utxos
  | n + 1, utxos =>
    if utxos.length = 0 then do
      let utxos ← callIgnoringError (.SafeListUtxos (listOption500 assetId))
        (c.SafeListUtxos (listOption500 assetId))
      TransferMany.relist c assetId n utxos
    else pure utxos

/-- The outputs of `TransferMany`, one per recipient, the threshold being
`byte(len(Member))`. -/
def TransferMany.outputs (memberAmount : List MemberAmount) : List TransactionOutput :=
  memberAmount.map fun item =>
    { Address := RequireNewMixAddress item.Member (item.Member.length % 256),
      Amount := item.Amount }

/-- Method `TransferMany` from the check of the empty listing on, given the listing
`utxos` that reached it. -/
def TransferMany.afterListing {σ τ : Type} (c : Client σ τ) (req : TransferManyRequest)
    (utxos : List SafeUtxo) : Prog σ SafeTransactionRequest :=
  match TransferMany.selectUtxos utxos req.MemberAmount with
  | .error e => fail e
  | .ok useUtxos =>
    let b : SafeTransactionBuilder := { NewSafeTransactionBuilder useUtxos with Memo := req.Memo }
    buildAndSubmit c b (TransferMany.outputs req.MemberAmount) req.RequestId

/-- Method `TransferMany`. -/
def TransferMany {σ τ : Type} (c : Client σ τ) (fuel : Nat) (req : TransferManyRequest) :
    Prog σ SafeTransactionRequest :=
  if req.MemberAmount.length > MAX_UTXO_NUM then fail .ErrMaxUtxoExceeded
  else do
    let utxos ← SyncArrgegateUtxos c fuel req.AssetId
    withLock do
      let utxos ← TransferMany.relist c req.AssetId 3 utxos
      TransferMany.afterListing c req utxos

/-- The `range` loop of `TransferManyN` over the chunks from index `i` on, calling
`transferMany` for each and returning its first error.  The callee is a parameter
over any state `S`; the method instantiates it with `TransferMany`. -/
def TransferManyN.loop {S R : Type} (newV5 : String → String)
    (transferMany : TransferManyRequest → S → Outcome R × S) (req : TransferManyRequest) :
    Nat → List (List MemberAmount) → S → Outcome Unit × S
  | _, [], s => (.ok (), s)
  | i, memberAmount :: rest, s =>
    let req1 : TransferManyRequest :=
      { RequestId := GenUuidFromStrings newV5 [req.RequestId, Itoa i],
        AssetId := req.AssetId,
        MemberAmount := memberAmount,
        Memo := req.Memo }
    match transferMany req1 s with
    | (.ok _, s1) => TransferManyN.loop newV5 transferMany req (i + 1) rest s1
    | (.err e, s1) => (.err e, s1)
    | (.panicked, s1) => (.panicked, s1)
    | (.unfinished, s1) => (.unfinished, s1)

/-- Method `TransferManyN` over the callee `transferMany`. -/
def TransferManyN.run {S R : Type} (newV5 : String → String)
    (transferMany : TransferManyRequest → S → Outcome R × S) (req : TransferManyRequest) :
    S → Outcome Unit × S := fun s =>
  if req.MemberAmount.length < MAX_UTXO_NUM then
    match transferMany req s with
    | (.ok _, s1) => (.ok (), s1)
    | (.err e, s1) => (.err e, s1)
    | (.panicked, s1) => (.panicked, s1)
    | (.unfinished, s1) => (.unfinished, s1)
  else
    TransferManyN.loop newV5 transferMany req 0 (buildTransferMany req.MemberAmount) s

/-- Method `TransferManyN`. -/
def TransferManyN {σ τ : Type} (newV5 : String → String) (c : Client σ τ) (fuel : Nat)
    (req : TransferManyRequest) : Prog σ Unit :=
  TransferManyN.run newV5 (TransferMany c fuel) req

/-- A recording stand-in for the callee of `TransferManyN`: it appends the request it is
called with to a log and then behaves as `transferMany`. -/
def recording {S R : Type} (transferMany : TransferManyRequest → S → Outcome R × S) :
    TransferManyRequest → S × List TransferManyRequest →
      Outcome R × (S × List TransferManyRequest) := fun req s =>
  let r := transferMany req s.1
  (r.1, (r.2, s.2 ++ [req]))

/-- The requests with which `TransferManyN` calls `TransferMany`, in order, when each
call behaves as `transferMany` and the run starts in state `s`. -/
def TransferManyN.invocations {S R : Type} (newV5 : String → String)
    (transferMany : TransferManyRequest → S → Outcome R × S) (req : TransferManyRequest)
    (s : S) : List TransferManyRequest :=
  (TransferManyN.run newV5 (recording transferMany) req (s, [])).2.2

/-- Method `InscriptionTransfer`.  It does not take `transferMutex`. -/
def InscriptionTransfer {σ τ : Type} (c : Client σ τ) (req : InscriptionTransferRequest) :
    Prog σ SafeTransactionRequest := do
  let utxos ← call (.SafeListUtxos (listOption500 req.AssetId))
    (c.SafeListUtxos (listOption500 req.AssetId))
  match inscriptionLoop req.Inscription utxos.length 0 utxos with
  | none => panic
  | some utxos =>
    if utxos.length = 0 then fail .ErrInscriptionNotFound
    else if utxos.length > 1 then fail .ErrMultInscriptionsFound
    else
      let b : SafeTransactionBuilder := { NewSafeTransactionBuilder utxos with Memo := req.Memo }
      let txOutout : TransactionOutput :=
        { Address := RequireNewMixAddress [req.Member] 1, Amount := firstAmount utxos }
      buildAndSubmit c b [txOutout] req.RequestId

/-- A ledger client for concrete runs: the ledger state counts the listings made so far,
the listing made in state `k` returns `listings k`, and every other call succeeds. -/
def scriptedClient (listings : Nat → List SafeUtxo) : Client Nat String where
  ClientID := "7f2c0d0e-6a1b-4c8e-9a55-0b1d7c3e4f10"
  RandomTraceID := fun s => ("trace", s)
  SafeListUtxos := fun _ s => (.ok (listings s), s + 1)
  MakeTransaction := fun _ _ s => (.ok "tx", s)
  Dump := fun tx => .ok tx
  SafeCreateTransactionRequest := fun input s => (.ok ⟨input.RequestID, "hash", []⟩, s)
  SafeSignTransaction := fun tx _ => .ok tx
  SafeSubmitTransactionRequest := fun input s => (.ok ⟨input.RequestID, "hash", []⟩, s)
  SafeReadTransactionRequest := fun requestId s => (.ok ⟨requestId, "hash", []⟩, s)

/-- A ledger client for concrete runs on which every listing returns `utxos`. -/
def fixedClient (utxos : List SafeUtxo) : Client Nat String :=
  scriptedClient fun _ => utxos

/-! ## Auxiliary definitions of the statements -/

/-- The test the removal loop keeps an output on: it carries no inscription. -/
def noInscription (u : SafeUtxo) : Bool := !u.InscriptionHash.HasValue

/-- The method body never returns `ErrMaxUtxoExceeded`. -/
def NeverMaxExceeded {σ α : Type} (p : Prog σ α) : Prop :=
  ∀ w : World σ, (p w).1 ≠ .err .ErrMaxUtxoExceeded

/-- The request the loop of `TransferManyN` builds for the chunk at index `i`. -/
def subRequest (newV5 : String → String) (req : TransferManyRequest) (i : Nat)
    (chunk : List MemberAmount) : TransferManyRequest :=
  { RequestId := GenUuidFromStrings newV5 [req.RequestId, Itoa i],
    AssetId := req.AssetId,
    MemberAmount := chunk,
    Memo := req.Memo }

/-! ## Concrete inputs -/

/-- A callee for concrete runs that always succeeds. -/
def alwaysOk : TransferManyRequest → Unit → Outcome Unit × Unit :=
  fun _ s => (.ok (), s)

/-- A stand-in for `uuid.NewV5` in concrete runs. -/
def sampleV5 (str : String) : String := "uuid5:" ++ str

/-- A listing for concrete runs: two plain outputs of 3 and 4 and a collectible. -/
def smallListing : List SafeUtxo :=
  [⟨"5b1f3c9e-0001", 3, Hash.zero⟩, ⟨"5b1f3c9e-0002", 4, Hash.zero⟩,
   ⟨"5b1f3c9e-0003", 100,
     ⟨"a3f1c2d4e5b60718293a4b5c6d7e8f90112233445566778899aabbccddeeff00"⟩⟩]

/-- A listing of `n` plain outputs with the amounts 1, 2, ..., `n`. -/
def ascendingListing (n : Nat) : List SafeUtxo :=
  (List.range n).map fun i => ⟨"utxo-" ++ toString i, (i : Int) + 1, Hash.zero⟩

/-- The collectible of `smallListing`. -/
def collectible : SafeUtxo :=
  ⟨"5b1f3c9e-0003", 100,
    ⟨"a3f1c2d4e5b60718293a4b5c6d7e8f90112233445566778899aabbccddeeff00"⟩⟩

/-- A request to transfer the collectible of `smallListing`. -/
def collectibleRequest : InscriptionTransferRequest :=
  ⟨"req-1", "asset-1", "a3f1c2d4e5b60718293a4b5c6d7e8f90112233445566778899aabbccddeeff00",
    "memo", "member-1"⟩

/-! ## Definitions for the refinement, the trace and the ledger statements -/

/-- The replacement the spec asks for in place of the removal loop: a fresh copy of the
listing that holds, in their order, the outputs carrying no inscription identifier. -/
def freshFilteredCopy : List SafeUtxo → List SafeUtxo
  | [] => []
  | u :: rest =>
    if u.InscriptionHash.HasValue then freshFilteredCopy rest
    else u :: freshFilteredCopy rest

/-- The method body only appends events to the trace, each of them satisfying `P`. -/
def EmitsOnly {σ α : Type} (P : Event → Prop) (p : Prog σ α) : Prop :=
  ∀ w : World σ, ∃ evs : List Event, (p w).2.trace = w.trace ++ evs ∧ ∀ e ∈ evs, P e

/-- The state of a ledger for concrete runs: the unspent outputs of the asset and the
transaction requests it has confirmed. -/
structure LedgerState where
  utxos : List SafeUtxo
  confirmed : List SafeTransactionRequest
deriving DecidableEq, Repr

/-- The confirmed request with identifier `requestId`, if the ledger has one. -/
def LedgerState.lookup (s : LedgerState) (requestId : String) :
    Option SafeTransactionRequest :=
  s.confirmed.find? fun r => decide (r.RequestID = requestId)

/-- A ledger client for concrete runs that keeps confirmed requests: reading a confirmed
identifier returns its request and reading another one fails; creating or submitting
under a confirmed identifier returns the confirmed request and changes nothing;
submitting under a new identifier confirms it. -/
def ledgerClient : Client LedgerState String where
  ClientID := "7f2c0d0e-6a1b-4c8e-9a55-0b1d7c3e4f10"
  RandomTraceID := fun s => ("trace", s)
  SafeListUtxos := fun _ s => (.ok s.utxos, s)
  MakeTransaction := fun _ _ s => (.ok "tx", s)
  Dump := fun tx => .ok tx
  SafeCreateTransactionRequest := fun input s =>
    match s.lookup input.RequestID with
    | some r => (.ok r, s)
    | none => (.ok ⟨input.RequestID, "", ["view"]⟩, s)
  SafeSignTransaction := fun tx _ => .ok tx
  SafeSubmitTransactionRequest := fun input s =>
    match s.lookup input.RequestID with
    | some r => (.ok r, s)
    | none =>
      (.ok ⟨input.RequestID, "hash-of-" ++ input.RequestID, []⟩,
        { s with confirmed := s.confirmed ++ [⟨input.RequestID, "hash-of-" ++ input.RequestID, []⟩] })
  SafeReadTransactionRequest := fun requestId s =>
    match s.lookup requestId with
    | some r => (.ok r, s)
    | none => (.error "not found", s)

/-- The request of the concrete runs of `TransferOne`: 5 to one member. -/
def sampleRequest : TransferOneRequest :=
  ⟨"req-1", "asset-1", "member-1", 5, "memo"⟩

/-- A request for concrete runs of `TransferOne` whose identifiers are UUIDs: 5 to one
member. -/
def repeatRequest : TransferOneRequest :=
  ⟨"3f0c1b9a-5d2e-4c7b-8a61-0e9d4b2f6c15", "c94ac88f-4671-3976-b60a-09064f1811e8",
    "a1ce2967-a534-417d-bf12-c86571e4eefa", 5, "memo"⟩

/-- The result the ledger confirmed for `repeatRequest`. -/
def sampleConfirmed : SafeTransactionRequest :=
  ⟨"3f0c1b9a-5d2e-4c7b-8a61-0e9d4b2f6c15",
    "7c1e5a90b2d44f6e8a3c0b9d1f2e4a6c8e0b2d4f6a8c0e1f3a5b7c9d0e2f4a6b", []⟩

/-- The listing of the cap-2 example of the spec: amounts 1, 2, 5 and 10. -/
def exampleListing : List SafeUtxo :=
  [⟨"utxo-a", 1, Hash.zero⟩, ⟨"utxo-b", 2, Hash.zero⟩, ⟨"utxo-c", 5, Hash.zero⟩,
   ⟨"utxo-d", 10, Hash.zero⟩]

/-- A ledger that has confirmed `repeatRequest` and still lists `smallListing`. -/
def confirmedLedger : LedgerState :=
  ⟨smallListing, [sampleConfirmed]⟩

/-- A ledger that has confirmed `repeatRequest` and lists no unspent output. -/
def spentLedger : LedgerState :=
  ⟨[], [sampleConfirmed]⟩

/-! ## Splitting the recipients: `buildTransferMany` -/

/-- The slice bounds of `buildTransferMany` are in range for every index of `result`:
`start <= end <= len`, so no slice expression of the function panics. -/
theorem buildTransferMany_bounds (n i : Nat) (hi : i < (n + MAX_UTXO_NUM - 1) / MAX_UTXO_NUM) :
    i * MAX_UTXO_NUM ≤ (if (i + 1) * MAX_UTXO_NUM > n then n else (i + 1) * MAX_UTXO_NUM) ∧
    (if (i + 1) * MAX_UTXO_NUM > n then n else (i + 1) * MAX_UTXO_NUM) ≤ n := by
  unfold MAX_UTXO_NUM at *
  split <;> omega

/-- The first `k` chunks, concatenated, are the first `k * 255` recipients. -/
theorem buildTransferMany_take (l : List MemberAmount) (k : Nat)
    (hk : k ≤ (l.length + MAX_UTXO_NUM - 1) / MAX_UTXO_NUM) :
    ((List.range k).map fun i =>
        slice l (i * MAX_UTXO_NUM)
          (if (i + 1) * MAX_UTXO_NUM > l.length then l.length
            else (i + 1) * MAX_UTXO_NUM)).flatten
      = l.take (k * MAX_UTXO_NUM) := by
  induction k with
  | zero => simp
  | succ k ih =>
    have hk1 : k ≤ (l.length + MAX_UTXO_NUM - 1) / MAX_UTXO_NUM := by omega
    rw [List.range_succ, List.map_append, List.flatten_append, ih hk1]
    have hlt : k * MAX_UTXO_NUM < l.length := by
      unfold MAX_UTXO_NUM at *
      omega
    simp only [List.map_cons, List.map_nil, List.flatten_cons, List.flatten_nil,
      List.append_nil, slice]
    split
    · rename_i hgt
      have h1 : List.take (l.length - k * MAX_UTXO_NUM) (List.drop (k * MAX_UTXO_NUM) l)
          = List.drop (k * MAX_UTXO_NUM) l := by
        apply List.take_of_length_le
        simp
      rw [h1, List.take_append_drop, List.take_of_length_le (by omega)]
    · have h2 : (k + 1) * MAX_UTXO_NUM - k * MAX_UTXO_NUM = MAX_UTXO_NUM := by
        rw [Nat.add_mul]; omega
      rw [h2]
      have h3 : (k + 1) * MAX_UTXO_NUM = k * MAX_UTXO_NUM + MAX_UTXO_NUM := by
        rw [Nat.add_mul]; omega
      rw [h3, List.take_add]

/-- The number of chunks `(n + 254) / 255` is the ceiling of `n / 255`. -/
theorem chunkCount_eq_ceil (n : Nat) :
    (n + MAX_UTXO_NUM - 1) / MAX_UTXO_NUM = ⌈(n : ℚ) / 255⌉₊ := by
  unfold MAX_UTXO_NUM
  apply le_antisymm
  · have h := Nat.le_ceil ((n : ℚ) / 255)
    have h2 : (n : ℚ) ≤ 255 * (⌈(n : ℚ) / 255⌉₊ : ℚ) := by
      have := (div_le_iff₀ (by norm_num : (0 : ℚ) < 255)).mp h
      linarith
    have h3 : n ≤ 255 * ⌈(n : ℚ) / 255⌉₊ := by exact_mod_cast h2
    omega
  · apply Nat.ceil_le.mpr
    rw [div_le_iff₀ (by norm_num : (0 : ℚ) < 255)]
    have h3 : n ≤ ((n + 255 - 1) / 255) * 255 := by omega
    exact_mod_cast h3

/-- The length of the chunk at index `i`. -/
theorem buildTransferMany_getElem_length (l : List MemberAmount) (i : Nat)
    (h : i < (buildTransferMany l).length) :
    (buildTransferMany l)[i].length = min MAX_UTXO_NUM (l.length - i * MAX_UTXO_NUM) := by
  have hi : i < (l.length + MAX_UTXO_NUM - 1) / MAX_UTXO_NUM := by
    simpa [buildTransferMany] using h
  simp only [buildTransferMany, List.getElem_map, List.getElem_range, slice,
    List.length_take, List.length_drop]
  unfold MAX_UTXO_NUM at *
  split <;> omega

/-- C5: concatenating the chunks returned by `buildTransferMany`, in order, gives back
the recipient list exactly: nothing is dropped, duplicated or reordered. -/
theorem buildTransferMany_flatten (memberAmounts : List MemberAmount) :
    (buildTransferMany memberAmounts).flatten = memberAmounts := by
  unfold buildTransferMany
  rw [buildTransferMany_take memberAmounts _ (le_refl _)]
  apply List.take_of_length_le
  unfold MAX_UTXO_NUM
  omega

/-- C6: for a recipient list of length `n`, `buildTransferMany` returns exactly
`ceil(n / 255)` chunks (none for the empty list), every chunk has at most 255 entries
and is not empty, and every chunk but the last has exactly 255 entries. -/
theorem buildTransferMany_shape (memberAmounts : List MemberAmount) :
    (buildTransferMany memberAmounts).length = ⌈(memberAmounts.length : ℚ) / 255⌉₊ ∧
    (memberAmounts = [] → buildTransferMany memberAmounts = []) ∧
    (∀ chunk ∈ buildTransferMany memberAmounts, chunk.length ≤ 255 ∧ chunk ≠ []) ∧
    (∀ (i : Nat) (h : i + 1 < (buildTransferMany memberAmounts).length),
      (buildTransferMany memberAmounts)[i].length = 255) := by
  have hlen : (buildTransferMany memberAmounts).length
      = (memberAmounts.length + MAX_UTXO_NUM - 1) / MAX_UTXO_NUM := by
    simp [buildTransferMany]
  refine ⟨?_, ?_, ?_, ?_⟩
  · rw [hlen, chunkCount_eq_ceil]
  · intro h
    subst h
    rfl
  · intro chunk hmem
    obtain ⟨i, hi, rfl⟩ := List.getElem_of_mem hmem
    have hl := buildTransferMany_getElem_length memberAmounts i hi
    rw [hlen] at hi
    unfold MAX_UTXO_NUM at *
    constructor
    · omega
    · intro hnil
      rw [hnil] at hl
      simp only [List.length_nil] at hl
      omega
  · intro i h
    have hl := buildTransferMany_getElem_length memberAmounts i (by omega)
    rw [hlen] at h
    unfold MAX_UTXO_NUM at *
    omega

/-! ## The removal loop of `TransferOne` -/

/-- From index `i` on, the loop keeps the first `i` outputs and, of the others, those
without inscription, in order. -/
theorem removeInscriptions_eq (utxos : List SafeUtxo) (i : Nat) :
    removeInscriptions utxos i = utxos.take i ++ (utxos.drop i).filter noInscription := by
  induction utxos, i using removeInscriptions.induct with
  | case1 utxos i h =>
    rw [removeInscriptions]
    split
    · have hge : utxos.length ≤ i := by
        rcases Nat.lt_or_ge i utxos.length with hlt | hge
        · rw [List.getElem?_eq_getElem hlt] at h; cases h
        · exact hge
      rw [List.take_of_length_le hge, List.drop_eq_nil_of_le hge]
      simp
    · rename_i u hu
      rw [h] at hu; cases hu
  | case2 utxos i u h hv ih =>
    have hlt : i < utxos.length := by
      rcases Nat.lt_or_ge i utxos.length with hlt | hge
      · exact hlt
      · rw [List.getElem?_eq_none hge] at h; cases h
    have hu : utxos[i] = u := by
      rw [List.getElem?_eq_getElem hlt] at h
      exact Option.some.inj h
    rw [removeInscriptions]
    split
    · rename_i hn
      rw [h] at hn; cases hn
    · rename_i u1 hu1
      have : u1 = u := by rw [h] at hu1; exact (Option.some.inj hu1).symm
      subst this
      rw [if_pos hv, ih]
      have hlen : (List.take i utxos).length = i := by
        rw [List.length_take]; omega
      rw [List.take_append_eq_append_take, List.drop_append_eq_append_drop]
      simp only [hlen, Nat.sub_self, List.take_zero, List.append_nil, List.drop_zero]
      rw [List.take_of_length_le (by omega), List.drop_of_length_le (by omega)]
      rw [List.drop_eq_getElem_cons hlt, hu, List.filter_cons]
      simp [noInscription, hv]
  | case3 utxos i u h hv ih =>
    have hlt : i < utxos.length := by
      rcases Nat.lt_or_ge i utxos.length with hlt | hge
      · exact hlt
      · rw [List.getElem?_eq_none hge] at h; cases h
    have hu : utxos[i] = u := by
      rw [List.getElem?_eq_getElem hlt] at h
      exact Option.some.inj h
    rw [removeInscriptions]
    split
    · rename_i hn
      rw [h] at hn; cases hn
    · rename_i u1 hu1
      have : u1 = u := by rw [h] at hu1; exact (Option.some.inj hu1).symm
      subst this
      rw [if_neg hv, ih]
      rw [List.drop_eq_getElem_cons hlt, hu, List.filter_cons, List.take_succ,
        List.getElem?_eq_getElem hlt, hu]
      simp [noInscription, hv]

/-- The removal loop of `TransferOne`, run from index 0, leaves the outputs without
inscription in their order. -/
theorem removeInscriptions_eq_filter (utxos : List SafeUtxo) :
    removeInscriptions utxos 0 = utxos.filter noInscription := by
  rw [removeInscriptions_eq]
  simp

/-! ## The selection of `TransferOne` and `TransferMany` -/

/-- Sorting keeps the sum of the amounts. -/
theorem sumAmount_sortByAmount (utxos : List SafeUtxo) :
    sumAmount (sortByAmount utxos) = sumAmount utxos := by
  unfold sumAmount sortByAmount
  exact ((List.perm_insertionSort _ utxos).map _).sum_eq

/-- Sorting keeps the outputs. -/
theorem mem_sortByAmount (utxos : List SafeUtxo) (u : SafeUtxo) :
    u ∈ sortByAmount utxos ↔ u ∈ utxos :=
  (List.perm_insertionSort _ utxos).mem_iff

/-- The expression `utxos[0].Amount` is not negative when no amount is. -/
theorem firstAmount_nonneg (utxos : List SafeUtxo) (h : ∀ u ∈ utxos, 0 ≤ u.Amount) :
    0 ≤ firstAmount utxos := by
  cases utxos with
  | nil => simp [firstAmount]
  | cons u rest => exact h u (List.mem_cons_self u rest)

/-- The sum of amounts that are not negative is not negative. -/
theorem sumAmount_nonneg (utxos : List SafeUtxo) (h : ∀ u ∈ utxos, 0 ≤ u.Amount) :
    0 ≤ sumAmount utxos := by
  induction utxos with
  | nil => simp [sumAmount]
  | cons u rest ih =>
    have h1 := h u (List.mem_cons_self u rest)
    have h2 := ih fun v hv => h v (List.mem_cons_of_mem u hv)
    simp only [sumAmount, List.map_cons, List.sum_cons] at *
    omega

/-- When what is tracked plus all that is still to come stays below the target, the
selection loop runs to the end of the list and ends below the target. -/
theorem selectLoop_lt (cap : Nat) (utxos : List SafeUtxo) (target : Int)
    (hfirst : 0 ≤ firstAmount utxos) :
    ∀ (rest : List SafeUtxo) (useAmount : Int) (useUtxos : List SafeUtxo),
      (∀ u ∈ rest, 0 ≤ u.Amount) → useAmount + sumAmount rest < target →
      (selectLoop cap utxos target rest useAmount useUtxos).1 < target := by
  intro rest
  induction rest with
  | nil =>
    intro useAmount useUtxos _ h
    simpa [selectLoop, sumAmount] using h
  | cons u rest ih =>
    intro useAmount useUtxos hnn h
    have hu := hnn u (List.mem_cons_self u rest)
    have hrest : ∀ v ∈ rest, 0 ≤ v.Amount := fun v hv => hnn v (List.mem_cons_of_mem u hv)
    have hsum := sumAmount_nonneg rest hrest
    simp only [sumAmount, List.map_cons, List.sum_cons] at h hsum
    simp only [selectLoop]
    by_cases hover : (useUtxos ++ [u]).length > cap
    · simp only [hover, decide_True, if_true]
      rw [if_neg (by simp only [ge_iff_le, not_le]; omega)]
      apply ih _ _ hrest
      simp only [sumAmount]
      omega
    · simp only [hover, decide_False, Bool.false_eq_true, if_false]
      rw [if_neg (by simp only [ge_iff_le, not_le]; omega)]
      apply ih _ _ hrest
      simp only [sumAmount]
      omega

/-- The shared selection fails with `ErrNotEnoughUtxos` when the amounts, none of them
negative, add up to less than the target. -/
theorem selectUtxos_not_enough (utxos : List SafeUtxo) (target : Int)
    (hnn : ∀ u ∈ utxos, 0 ≤ u.Amount) (hsum : sumAmount utxos < target) :
    selectUtxos utxos target = .error .ErrNotEnoughUtxos := by
  have hnn1 : ∀ u ∈ sortByAmount utxos, 0 ≤ u.Amount :=
    fun u hu => hnn u ((mem_sortByAmount utxos u).mp hu)
  have h := selectLoop_lt MAX_UTXO_NUM (sortByAmount utxos) target
    (firstAmount_nonneg _ hnn1) (sortByAmount utxos) 0 [] hnn1
    (by rw [sumAmount_sortByAmount]; omega)
  simp only [selectUtxos]
  rw [if_pos h]

/-- The selection of `TransferOne` with the removal loop written as a filter. -/
theorem TransferOne_selectUtxos_eq (utxos : List SafeUtxo) (amount : Int) :
    TransferOne.selectUtxos utxos amount =
      if utxos.length = 0 then .error .ErrNotEnoughUtxos
      else selectUtxos (utxos.filter noInscription) amount := by
  rw [TransferOne.selectUtxos, removeInscriptions_eq_filter]

set_option maxRecDepth 1000000 in
/-- C1 fails on the code: on a listing of 257 plain outputs with the amounts 1 to 257 and
the requested amount 33151, the selection of `TransferOne` (and of `TransferMany` with
one recipient of 33151) does not fail, and hands to the builder the 255 outputs with
the amounts 3 to 257, which add up to 33150, less than requested.  The second eviction
drops the output of amount 2 from the window but subtracts `utxos[0].Amount = 1`.
The last part is a whole run of `TransferOne` that reaches this listing: the listing of
the aggregation is empty, the second listing (limit 500) returns the 257 outputs, and
`MakeTransaction` is called with the 255 inputs for an output of 33151. -/
theorem selection_below_requested :
    TransferOne.selectUtxos (ascendingListing 257) 33151
      = .ok ((ascendingListing 257).drop 2) ∧
    TransferMany.selectUtxos (ascendingListing 257) [⟨["member-1"], 33151⟩]
      = .ok ((ascendingListing 257).drop 2) ∧
    sumAmount ((ascendingListing 257).drop 2) = 33150 ∧
    (TransferOne (scriptedClient fun k => if k = 0 then [] else ascendingListing 257) 1
        ⟨"req-1", "asset-1", "member-1", 33151, "memo"⟩ ⟨0, []⟩).2.trace
      = [.Lock, .SafeListUtxos (listOption "asset-1"), .Unlock, .Lock,
         .SafeListUtxos (listOption500 "asset-1"),
         .MakeTransaction ⟨(ascendingListing 257).drop 2, "memo"⟩
           [⟨RequireNewMixAddress ["member-1"] 1, 33151⟩],
         .SafeCreateTransactionRequest ⟨"req-1", "tx"⟩,
         .SafeSubmitTransactionRequest ⟨"req-1", "tx"⟩,
         .SafeReadTransactionRequest "req-1", .Unlock] := by
  refine ⟨?_, ?_, ?_, ?_⟩
  · rw [TransferOne_selectUtxos_eq]
    decide
  · decide
  · decide
  · simp only [TransferOne, TransferOne.afterListing, TransferOne_selectUtxos_eq]
    decide

/-- C2 fails on the code: `TransferMany` has no removal loop.  On the listing of two
plain outputs (3 and 4) and a collectible (100), a request of 50 for one recipient
makes `TransferMany` select all three outputs, the collectible included, and call
`MakeTransaction` with them; `TransferOne` on the same listing and amount removes the
collectible and fails with `ErrNotEnoughUtxos`. -/
theorem TransferMany_selects_inscription :
    (smallListing.map fun u => u.InscriptionHash.HasValue) = [false, false, true] ∧
    TransferMany.selectUtxos smallListing [⟨["member-1"], 50⟩] = .ok smallListing ∧
    TransferMany (fixedClient smallListing) 1
        ⟨"req-1", "asset-1", [⟨["member-1"], 50⟩], "memo"⟩ ⟨0, []⟩
      = (.ok ⟨"req-1", "hash", []⟩,
         ⟨1, [.Lock, .SafeListUtxos (listOption "asset-1"), .Unlock, .Lock,
              .MakeTransaction ⟨smallListing, "memo"⟩
                [⟨RequireNewMixAddress ["member-1"] 1, 50⟩],
              .SafeCreateTransactionRequest ⟨"req-1", "tx"⟩,
              .SafeSubmitTransactionRequest ⟨"req-1", "tx"⟩,
              .SafeReadTransactionRequest "req-1", .Unlock]⟩) ∧
    TransferOne.selectUtxos smallListing 50 = .error .ErrNotEnoughUtxos := by
  refine ⟨by decide, by decide, by decide, ?_⟩
  rw [TransferOne_selectUtxos_eq]
  decide

/-! ## The filtering loop of `InscriptionTransfer` -/

/-- Without a matching output the loop leaves the listing as it is. -/
theorem inscriptionLoop_no_match (inscription : String) (utxos : List SafeUtxo)
    (h : ∀ u ∈ utxos, u.InscriptionHash.String ≠ inscription) :
    ∀ (remaining i : Nat), i + remaining = utxos.length →
      inscriptionLoop inscription remaining i utxos = some utxos := by
  intro remaining
  induction remaining with
  | zero => intro i _; rfl
  | succ r ih =>
    intro i hi
    have hlt : i < utxos.length := by omega
    simp only [inscriptionLoop, List.getElem?_eq_getElem hlt]
    rw [if_neg (h _ (List.getElem_mem hlt))]
    exact ih (i + 1) (by omega)

/-- When the output at index `k` matches and is not the last of the listing, the loop
panics: the iteration after the first match indexes the one-element slice at a
position of at least 1. -/
theorem inscriptionLoop_match_not_last (inscription : String) (utxos : List SafeUtxo)
    (k : Nat) (u : SafeUtxo) (hk : k + 1 < utxos.length) (hu : utxos[k]? = some u)
    (hmatch : u.InscriptionHash.String = inscription) :
    ∀ (remaining i : Nat), i + remaining = utxos.length → i ≤ k →
      inscriptionLoop inscription remaining i utxos = none := by
  intro remaining
  induction remaining with
  | zero => intro i hi hik; omega
  | succ r ih =>
    intro i hi hik
    have hlt : i < utxos.length := by omega
    simp only [inscriptionLoop, List.getElem?_eq_getElem hlt]
    split
    · cases r with
      | zero => omega
      | succ r1 =>
        simp only [inscriptionLoop]
        rw [List.getElem?_eq_none (by simp)]
    · rename_i hne
      have hik1 : i ≠ k := by
        intro heq
        subst heq
        rw [List.getElem?_eq_getElem hlt] at hu
        have : utxos[i] = u := Option.some.inj hu
        rw [this] at hne
        exact hne hmatch
      exact ih (i + 1) (by omega) (by omega)

/-- C3 fails on the code whenever the matching output is not the last one of the
listing: if the listing call returns `utxos` and the output at an index `k` with
`k + 1 < len(utxos)` carries the requested inscription, `InscriptionTransfer` panics
in its filtering loop right after the listing call and builds nothing. -/
theorem InscriptionTransfer_panics_when_match_not_last {σ τ : Type} (c : Client σ τ)
    (req : InscriptionTransferRequest) (w : World σ) (utxos : List SafeUtxo) (s1 : σ)
    (hlist : c.SafeListUtxos (listOption500 req.AssetId) w.ledger = (.ok utxos, s1))
    (k : Nat) (u : SafeUtxo) (hk : k + 1 < utxos.length) (hu : utxos[k]? = some u)
    (hmatch : u.InscriptionHash.String = req.Inscription) :
    InscriptionTransfer c req w
      = (.panicked, ⟨s1, w.trace ++ [.SafeListUtxos (listOption500 req.AssetId)]⟩) := by
  have hloop := inscriptionLoop_match_not_last req.Inscription utxos k u hk hu hmatch
    utxos.length 0 (by omega) (by omega)
  simp only [InscriptionTransfer, bind, Prog.bind, call, hlist, hloop]
  rfl

/-- C3 at a concrete input: the listing holds the requested collectible first and one
plain output after it; `InscriptionTransfer` panics after the listing call. -/
theorem InscriptionTransfer_panics_witness :
    InscriptionTransfer (fixedClient [collectible, ⟨"5b1f3c9e-0001", 3, Hash.zero⟩])
        collectibleRequest ⟨0, []⟩
      = (.panicked, ⟨1, [.SafeListUtxos (listOption500 "asset-1")]⟩) :=
  InscriptionTransfer_panics_when_match_not_last
    (fixedClient [collectible, ⟨"5b1f3c9e-0001", 3, Hash.zero⟩]) collectibleRequest ⟨0, []⟩
    [collectible, ⟨"5b1f3c9e-0001", 3, Hash.zero⟩] 1 rfl 0 collectible (by decide) rfl rfl

/-- C4 fails on the code.  If the listing call returns `utxos` and no listed output
carries the requested inscription, `InscriptionTransfer` returns
`ErrInscriptionNotFound` only for the empty listing; for a listing of one output it
goes on to build, create and submit a transaction that spends that output in full;
for a listing of two or more outputs it returns `ErrMultInscriptionsFound`. -/
theorem InscriptionTransfer_no_match {σ τ : Type} (c : Client σ τ)
    (req : InscriptionTransferRequest) (w : World σ) (utxos : List SafeUtxo) (s1 : σ)
    (hlist : c.SafeListUtxos (listOption500 req.AssetId) w.ledger = (.ok utxos, s1))
    (hnone : ∀ u ∈ utxos, u.InscriptionHash.String ≠ req.Inscription) :
    (utxos = [] → InscriptionTransfer c req w
      = (.err .ErrInscriptionNotFound,
          ⟨s1, w.trace ++ [.SafeListUtxos (listOption500 req.AssetId)]⟩)) ∧
    (∀ u : SafeUtxo, utxos = [u] → InscriptionTransfer c req w
      = buildAndSubmit c ⟨[u], req.Memo⟩
          [⟨RequireNewMixAddress [req.Member] 1, u.Amount⟩] req.RequestId
          ⟨s1, w.trace ++ [.SafeListUtxos (listOption500 req.AssetId)]⟩) ∧
    (2 ≤ utxos.length → InscriptionTransfer c req w
      = (.err .ErrMultInscriptionsFound,
          ⟨s1, w.trace ++ [.SafeListUtxos (listOption500 req.AssetId)]⟩)) := by
  have hloop := inscriptionLoop_no_match req.Inscription utxos hnone utxos.length 0
    (by omega)
  simp only [InscriptionTransfer, bind, Prog.bind, call, hlist, hloop]
  refine ⟨?_, ?_, ?_⟩
  · intro h
    subst h
    rfl
  · intro u h
    subst h
    rfl
  · intro h
    rw [if_neg (by omega), if_pos (by omega)]
    rfl

/-- C4 at concrete inputs.  Asked for the collectible when the listing holds only one
plain output of 3, `InscriptionTransfer` returns no error and `MakeTransaction`,
`SafeCreateTransactionRequest` and `SafeSubmitTransactionRequest` are called to
transfer the plain output. -/
theorem InscriptionTransfer_no_match_witness :
    InscriptionTransfer (fixedClient [⟨"5b1f3c9e-0001", 3, Hash.zero⟩])
        collectibleRequest ⟨0, []⟩
      = (.ok ⟨"req-1", "hash", []⟩,
         ⟨1, [.SafeListUtxos (listOption500 "asset-1"),
              .MakeTransaction ⟨[⟨"5b1f3c9e-0001", 3, Hash.zero⟩], "memo"⟩
                [⟨RequireNewMixAddress ["member-1"] 1, 3⟩],
              .SafeCreateTransactionRequest ⟨"req-1", "tx"⟩,
              .SafeSubmitTransactionRequest ⟨"req-1", "tx"⟩,
              .SafeReadTransactionRequest "req-1"]⟩) :=
  ((InscriptionTransfer_no_match (fixedClient [⟨"5b1f3c9e-0001", 3, Hash.zero⟩])
    collectibleRequest ⟨0, []⟩ [⟨"5b1f3c9e-0001", 3, Hash.zero⟩] 1 rfl (by decide)).2.1
      _ rfl).trans (by decide)

/-! ## The recipient bound of `TransferMany` -/

/-- A plain return is not `ErrMaxUtxoExceeded`. -/
theorem neverMax_pure {σ α : Type} (a : α) :
    NeverMaxExceeded (pure a : Prog σ α) := by
  intro w h
  cases h

/-- Sequencing two bodies that never return `ErrMaxUtxoExceeded`. -/
theorem neverMax_bind {σ α β : Type} {p : Prog σ α} {f : α → Prog σ β}
    (hp : NeverMaxExceeded p) (hf : ∀ a, NeverMaxExceeded (f a)) :
    NeverMaxExceeded (p >>= f) := by
  intro w
  have h1 := hp w
  show (Prog.bind p f w).1 ≠ _
  unfold Prog.bind
  rcases hpw : p w with ⟨o, w1⟩
  rw [hpw] at h1
  cases o with
  | ok a => exact hf a w1
  | err e => simpa using h1
  | panicked => simp
  | unfinished => simp

/-- A ledger call returns its own errors only. -/
theorem neverMax_call {σ α : Type} (ev : Event) (f : σ → Except String α × σ) :
    NeverMaxExceeded (call ev f) := by
  intro w
  simp only [call]
  split <;> simp

/-- A ledger call whose error is discarded returns no error. -/
theorem neverMax_callIgnoringError {σ α : Type} (ev : Event)
    (f : σ → Except String (List α) × σ) : NeverMaxExceeded (callIgnoringError ev f) := by
  intro w
  simp only [callIgnoringError]
  split <;> simp

/-- A function of the SDK returns its own errors only. -/
theorem neverMax_lift {σ α : Type} (r : Except String α) :
    NeverMaxExceeded (lift r : Prog σ α) := by
  intro w
  simp only [lift]
  split <;> simp

/-- Drawing a trace identifier returns no error. -/
theorem neverMax_randomTraceID {σ τ : Type} (c : Client σ τ) :
    NeverMaxExceeded (randomTraceID c) := by
  intro w h
  cases h

/-- Locking around a body adds no error. -/
theorem neverMax_withLock {σ α : Type} {body : Prog σ α}
    (hb : NeverMaxExceeded body) : NeverMaxExceeded (withLock body) := by
  intro w
  have h1 := hb ⟨w.ledger, w.trace ++ [.Lock]⟩
  simp only [withLock]
  split
  · simp
  · rename_i r w1 _ heq
    rw [heq] at h1
    simpa using h1

/-- The read loop of the aggregation returns errors of the ledger only. -/
theorem neverMax_readLoop {σ τ : Type} (c : Client σ τ) (requestId : String)
    (retryTimes : Nat) :
    NeverMaxExceeded (SyncArrgegateUtxos.readLoop c requestId retryTimes) := by
  unfold SyncArrgegateUtxos.readLoop
  split
  · exact neverMax_pure _
  · exact neverMax_bind (neverMax_call _ _) fun _ => neverMax_pure _

/-- The aggregation loop returns errors of the ledger only. -/
theorem neverMax_syncLoop {σ τ : Type} (c : Client σ τ) (assetId : String)
    (fuel : Nat) : NeverMaxExceeded (SyncArrgegateUtxos.loop c assetId fuel) := by
  induction fuel with
  | zero => intro w h; cases h
  | succ fuel ih =>
    unfold SyncArrgegateUtxos.loop
    refine neverMax_bind (neverMax_randomTraceID c) fun requestId => ?_
    refine neverMax_bind (neverMax_call _ _) fun utxos => ?_
    split
    · exact neverMax_pure _
    · dsimp only
      refine neverMax_bind (neverMax_call _ _) fun tx => ?_
      refine neverMax_bind (neverMax_lift _) fun raw => ?_
      refine neverMax_bind (neverMax_call _ _) fun request => ?_
      refine neverMax_bind (neverMax_lift _) fun tx1 => ?_
      refine neverMax_bind (neverMax_lift _) fun signedRaw => ?_
      refine neverMax_bind (neverMax_call _ _) fun _ => ?_
      exact neverMax_bind (neverMax_readLoop _ _ _) fun _ => ih

/-- Steps 2 to 6 return errors of the ledger only. -/
theorem neverMax_buildAndSubmit {σ τ : Type} (c : Client σ τ)
    (b : SafeTransactionBuilder) (outputs : List TransactionOutput) (requestId : String) :
    NeverMaxExceeded (buildAndSubmit c b outputs requestId) := by
  unfold buildAndSubmit
  refine neverMax_bind (neverMax_call _ _) fun tx => ?_
  refine neverMax_bind (neverMax_lift _) fun raw => ?_
  refine neverMax_bind (neverMax_call _ _) fun request => ?_
  refine neverMax_bind (neverMax_lift _) fun tx1 => ?_
  refine neverMax_bind (neverMax_lift _) fun signedRaw => ?_
  exact neverMax_bind (neverMax_call _ _) fun _ => neverMax_call _ _

/-- The listing loop of `TransferMany` returns no error. -/
theorem neverMax_relistMany {σ τ : Type} (c : Client σ τ) (assetId : String)
    (n : Nat) : ∀ utxos, NeverMaxExceeded (TransferMany.relist c assetId n utxos) := by
  induction n with
  | zero => intro utxos; exact neverMax_pure _
  | succ n ih =>
    intro utxos
    unfold TransferMany.relist
    split
    · exact neverMax_bind (neverMax_callIgnoringError _ _) fun l => ih l
    · exact neverMax_pure _

/-- The only error of the shared selection is `ErrNotEnoughUtxos`. -/
theorem selectUtxos_error (utxos : List SafeUtxo) (target : Int) (e : Error)
    (h : selectUtxos utxos target = .error e) : e = .ErrNotEnoughUtxos := by
  simp only [selectUtxos] at h
  split at h
  · cases h; rfl
  · cases h

/-- From the listing on, `TransferMany` returns `ErrNotEnoughUtxos` or an error of the ledger. -/
theorem neverMax_afterListingMany {σ τ : Type} (c : Client σ τ)
    (req : TransferManyRequest) (utxos : List SafeUtxo) :
    NeverMaxExceeded (TransferMany.afterListing c req utxos) := by
  unfold TransferMany.afterListing
  split
  · rename_i e he
    have : e = .ErrNotEnoughUtxos := by
      unfold TransferMany.selectUtxos at he
      split at he
      · cases he; rfl
      · exact selectUtxos_error _ _ _ he
    subst this
    intro w h
    cases h
  · exact neverMax_buildAndSubmit _ _ _ _

/-- C9: `TransferMany` returns `ErrMaxUtxoExceeded` if and only if the request has more
than 255 recipients, and then it returns at once: the ledger state and the trace are
as before, so no listing, aggregation, build or submit call was made. -/
theorem TransferMany_max_exceeded {σ τ : Type} (c : Client σ τ) (fuel : Nat)
    (req : TransferManyRequest) (w : World σ) :
    ((TransferMany c fuel req w).1 = .err .ErrMaxUtxoExceeded
      ↔ req.MemberAmount.length > 255) ∧
    (req.MemberAmount.length > 255 →
      TransferMany c fuel req w = (.err .ErrMaxUtxoExceeded, w)) := by
  have hgt : req.MemberAmount.length > 255 →
      TransferMany c fuel req w = (.err .ErrMaxUtxoExceeded, w) := by
    intro h
    unfold TransferMany
    rw [if_pos (by unfold MAX_UTXO_NUM; exact h)]
    rfl
  refine ⟨⟨?_, fun h => by rw [hgt h]⟩, hgt⟩
  intro h
  by_contra hle
  have hnever : NeverMaxExceeded
      (do
        let utxos ← SyncArrgegateUtxos c fuel req.AssetId
        withLock do
          let utxos ← TransferMany.relist c req.AssetId 3 utxos
          TransferMany.afterListing c req utxos) :=
    neverMax_bind (neverMax_withLock (neverMax_syncLoop _ _ _))
      fun utxos => neverMax_withLock
        (neverMax_bind (neverMax_relistMany _ _ _ _)
          fun l => neverMax_afterListingMany _ _ l)
  unfold TransferMany at h
  rw [if_neg (by unfold MAX_UTXO_NUM; exact hle)] at h
  exact hnever w h

/-! ## The inputs of the aggregation -/

/-- The loop of `SyncArrgegateUtxos` appends every output without inscription. -/
theorem aggregateSlice_eq (utxos utxoSlice : List SafeUtxo) (utxoSliceAmount : Int) :
    aggregateSlice utxos utxoSlice utxoSliceAmount
      = (utxoSlice ++ utxos.filter noInscription,
         utxoSliceAmount + sumAmount (utxos.filter noInscription)) := by
  induction utxos generalizing utxoSlice utxoSliceAmount with
  | nil => simp [aggregateSlice, sumAmount]
  | cons u rest ih =>
    by_cases hv : u.InscriptionHash.HasValue = true
    · simp [aggregateSlice, hv, ih, noInscription]
    · simp [aggregateSlice, hv, ih, noInscription, sumAmount, add_assoc]

set_option maxRecDepth 1000000 in
/-- C10 fails on the code: the aggregation hands every listed output without
inscription to the builder, whatever their number.  On a listing of 256 plain outputs
(amounts 1 to 256) `utxoSlice` has 256 entries, and the run of `SyncArrgegateUtxos`
calls `MakeTransaction` with all 256 as inputs of the consolidating transaction. -/
theorem SyncArrgegateUtxos_inputs_exceed_cap :
    (∀ utxos : List SafeUtxo,
      (aggregateSlice utxos [] 0).1 = utxos.filter fun u => !u.InscriptionHash.HasValue) ∧
    (aggregateSlice (ascendingListing 256) [] 0).1.length = 256 ∧
    SyncArrgegateUtxos
        (scriptedClient fun k =>
          if k = 0 then ascendingListing 256 else [⟨"utxo-merged", 32896, Hash.zero⟩])
        2 "asset-1" ⟨0, []⟩
      = (.ok [⟨"utxo-merged", 32896, Hash.zero⟩],
         ⟨2, [.Lock, .SafeListUtxos (listOption "asset-1"),
              .MakeTransaction ⟨ascendingListing 256, AGGREGRATE_UTXO_MEMO⟩
                [⟨RequireNewMixAddress ["7f2c0d0e-6a1b-4c8e-9a55-0b1d7c3e4f10"] 1, 32896⟩],
              .SafeCreateTransactionRequest ⟨"trace", "tx"⟩,
              .SafeSubmitTransactionRequest ⟨"trace", "tx"⟩,
              .SafeReadTransactionRequest "trace",
              .SafeListUtxos (listOption "asset-1"), .Unlock]⟩) := by
  refine ⟨?_, by decide, by decide⟩
  intro utxos
  rw [aggregateSlice_eq]
  rfl

/-! ## The sub-batches of `TransferManyN` -/

/-- The loop of `TransferManyN` with a recording callee: the log grows by the requests
built for the first `k` chunks, in order; all chunks are reached when the loop returns
without error; outcome and state are those of the loop with the plain callee. -/
theorem TransferManyN_loop_log {S R : Type} (newV5 : String → String)
    (transferMany : TransferManyRequest → S → Outcome R × S) (req : TransferManyRequest) :
    ∀ (chunks : List (List MemberAmount)) (i : Nat) (s : S)
      (log : List TransferManyRequest),
      (TransferManyN.loop newV5 (recording transferMany) req i chunks (s, log)).1
        = (TransferManyN.loop newV5 transferMany req i chunks s).1 ∧
      ∃ k, k ≤ chunks.length ∧
        (TransferManyN.loop newV5 (recording transferMany) req i chunks (s, log)).2.2
          = log ++ ((chunks.take k).enumFrom i).map
              (fun p => subRequest newV5 req p.1 p.2) ∧
        ((TransferManyN.loop newV5 (recording transferMany) req i chunks (s, log)).1
            = .ok () → k = chunks.length) := by
  intro chunks
  induction chunks with
  | nil =>
    intro i s log
    exact ⟨rfl, 0, le_refl _, by simp [TransferManyN.loop], fun _ => rfl⟩
  | cons chunk rest ih =>
    intro i s log
    have hreq : (⟨GenUuidFromStrings newV5 [req.RequestId, Itoa i], req.AssetId, chunk,
        req.Memo⟩ : TransferManyRequest) = subRequest newV5 req i chunk := rfl
    simp only [TransferManyN.loop, recording, hreq]
    rcases htm : transferMany (subRequest newV5 req i chunk) s with ⟨o, s1⟩
    cases o with
    | ok a =>
      simp only []
      obtain ⟨h1, k, hk, hlog, hok⟩ := ih (i + 1) s1
        (log ++ [subRequest newV5 req i chunk])
      refine ⟨h1, k + 1, by simp only [List.length_cons]; omega, ?_, ?_⟩
      · rw [hlog]
        simp [List.enumFrom]
      · intro h
        simp only [List.length_cons]
        rw [hok h]
    | err e =>
      refine ⟨rfl, 1, by simp, ?_, fun h => by cases h⟩
      simp [List.enumFrom]
    | panicked =>
      refine ⟨rfl, 1, by simp, ?_, fun h => by cases h⟩
      simp [List.enumFrom]
    | unfinished =>
      refine ⟨rfl, 1, by simp, ?_, fun h => by cases h⟩
      simp [List.enumFrom]

/-- C8 as amended: a request with fewer than 255 recipients (none included) leads to
exactly one call of `TransferMany`, with the request itself, so under the parent request
identifier.  For a request with 255 recipients or more the calls are made chunk by
chunk: the `i`-th call carries the `i`-th chunk of `buildTransferMany`, the asset and
memo of the request, and the identifier `GenUuidFromStrings(parent id, Itoa(i))`; there
are never more calls than chunks, and exactly one per chunk when `TransferManyN` returns
without error. -/
theorem TransferManyN_invocations {S R : Type} (newV5 : String → String)
    (transferMany : TransferManyRequest → S → Outcome R × S) (req : TransferManyRequest)
    (s : S) :
    (req.MemberAmount.length < 255 →
      TransferManyN.invocations newV5 transferMany req s = [req]) ∧
    (255 ≤ req.MemberAmount.length →
      (TransferManyN.invocations newV5 transferMany req s).length
        ≤ (buildTransferMany req.MemberAmount).length ∧
      ((TransferManyN.run newV5 transferMany req s).1 = .ok () →
        (TransferManyN.invocations newV5 transferMany req s).length
          = (buildTransferMany req.MemberAmount).length) ∧
      ∀ (i : Nat) (called : TransferManyRequest),
        (TransferManyN.invocations newV5 transferMany req s)[i]? = some called →
          (buildTransferMany req.MemberAmount)[i]? = some called.MemberAmount ∧
          called.RequestId = GenUuidFromStrings newV5 [req.RequestId, Itoa i] ∧
          called.AssetId = req.AssetId ∧ called.Memo = req.Memo) := by
  constructor
  · intro hlt
    have hlt1 : req.MemberAmount.length < MAX_UTXO_NUM := hlt
    simp only [TransferManyN.invocations, TransferManyN.run, if_pos hlt1, recording]
    rcases transferMany req s with ⟨o, s1⟩
    cases o <;> rfl
  · intro hge
    have hge1 : ¬ req.MemberAmount.length < MAX_UTXO_NUM := by
      unfold MAX_UTXO_NUM; omega
    obtain ⟨h1, k, hk, hlog, hok⟩ := TransferManyN_loop_log newV5 transferMany req
      (buildTransferMany req.MemberAmount) 0 s []
    have hinv : TransferManyN.invocations newV5 transferMany req s
        = (((buildTransferMany req.MemberAmount).take k).enumFrom 0).map
            (fun p => subRequest newV5 req p.1 p.2) := by
      simp only [TransferManyN.invocations, TransferManyN.run, if_neg hge1]
      rw [hlog]
      rfl
    have hrun : (TransferManyN.run newV5 transferMany req s).1
        = (TransferManyN.loop newV5 (recording transferMany) req 0
            (buildTransferMany req.MemberAmount) (s, [])).1 := by
      simp only [TransferManyN.run, if_neg hge1]
      exact h1.symm
    refine ⟨?_, ?_, ?_⟩
    · rw [hinv]
      simp only [List.length_map, List.enumFrom_length, List.length_take]
      omega
    · intro h
      rw [hrun] at h
      rw [hinv, hok h]
      simp
    · intro i called hcalled
      rw [hinv, List.getElem?_map, List.getElem?_enumFrom, List.getElem?_take] at hcalled
      split at hcalled
      · rcases hchunk : (buildTransferMany req.MemberAmount)[i]? with _ | chunk
        · rw [hchunk] at hcalled
          cases hcalled
        · rw [hchunk] at hcalled
          simp only [Option.map_some', Option.some.injEq] at hcalled
          subst hcalled
          simp [subRequest]
      · cases hcalled

set_option maxRecDepth 100000 in
/-- C8 as amended, at concrete inputs: one recipient gives one call under the parent
identifier; 255 recipients give at most one call, the number of chunks. -/
theorem TransferManyN_invocations_witness :
    TransferManyN.invocations sampleV5 alwaysOk
        ⟨"parent-id", "asset-1", [⟨["member-1"], 5⟩], "memo"⟩ ()
      = [⟨"parent-id", "asset-1", [⟨["member-1"], 5⟩], "memo"⟩] ∧
    (TransferManyN.invocations sampleV5 alwaysOk
        ⟨"parent-id", "asset-1", List.replicate 255 ⟨["member-1"], 5⟩, "memo"⟩ ()).length
      ≤ (buildTransferMany (List.replicate 255 ⟨["member-1"], 5⟩)).length :=
  ⟨(TransferManyN_invocations sampleV5 alwaysOk
      ⟨"parent-id", "asset-1", [⟨["member-1"], 5⟩], "memo"⟩ ()).1 (by decide),
   ((TransferManyN_invocations sampleV5 alwaysOk
      ⟨"parent-id", "asset-1", List.replicate 255 ⟨["member-1"], 5⟩, "memo"⟩ ()).2
        (by decide)).1⟩

/-- C8 fails on the code for requests with fewer than 255 recipients.  Whatever function
stands for `uuid.NewV5`, the claim fails on the request without recipients: a call of
`TransferMany` is made although `buildTransferMany` returns no chunk.  And on a request
with one recipient the only call is made with the request as it is, under the
identifier `parent-id` and no derived one. -/
theorem TransferManyN_small_request_counterexample :
    (¬ ∃ newV5 : String → String,
      ∀ (req : TransferManyRequest) (i : Nat) (called : TransferManyRequest),
        (TransferManyN.invocations newV5 alwaysOk req ())[i]? = some called →
          (buildTransferMany req.MemberAmount)[i]? = some called.MemberAmount ∧
          called.RequestId = GenUuidFromStrings newV5 [req.RequestId, Itoa i]) ∧
    (∀ newV5 : String → String,
      TransferManyN.invocations newV5 alwaysOk
          ⟨"parent-id", "asset-1", [⟨["member-1"], 5⟩], "memo"⟩ ()
        = [⟨"parent-id", "asset-1", [⟨["member-1"], 5⟩], "memo"⟩]) := by
  constructor
  · rintro ⟨newV5, h⟩
    have h0 := (h ⟨"parent-id", "asset-1", [], "memo"⟩ 0
      ⟨"parent-id", "asset-1", [], "memo"⟩ rfl).1
    revert h0
    decide
  · intro newV5
    rfl

/-! ## The removal loop against the fresh filtered copy -/

/-- The fresh filtered copy is the filter on the outputs without inscription. -/
theorem freshFilteredCopy_eq_filter (utxos : List SafeUtxo) :
    freshFilteredCopy utxos = utxos.filter noInscription := by
  induction utxos with
  | nil => rfl
  | cons u rest ih =>
    by_cases hv : u.InscriptionHash.HasValue = true
    · simp [freshFilteredCopy, hv, ih, noInscription]
    · simp [freshFilteredCopy, hv, ih, noInscription]

/-- Every output of the window the selection loop ends with was in the window it started
with or among the outputs it went through. -/
theorem selectLoop_mem (cap : Nat) (utxos : List SafeUtxo) (target : Int) (u : SafeUtxo) :
    ∀ (rest : List SafeUtxo) (useAmount : Int) (useUtxos : List SafeUtxo),
      u ∈ (selectLoop cap utxos target rest useAmount useUtxos).2 →
      u ∈ useUtxos ∨ u ∈ rest := by
  intro rest
  induction rest with
  | nil =>
    intro useAmount useUtxos h
    exact Or.inl (by simpa [selectLoop] using h)
  | cons x rest ih =>
    intro useAmount useUtxos h
    simp only [selectLoop] at h
    have hdrop : ∀ v, v ∈ (useUtxos ++ [x]).drop 1 → v ∈ useUtxos ∨ v = x := by
      intro v hv
      simpa using List.mem_of_mem_drop hv
    have happ : ∀ v, v ∈ useUtxos ++ [x] → v ∈ useUtxos ∨ v = x := by
      intro v hv
      simpa using hv
    have hfin : ∀ w : List SafeUtxo, (∀ v, v ∈ w → v ∈ useUtxos ∨ v = x) →
        (u ∈ w ∨ u ∈ rest) → u ∈ useUtxos ∨ u ∈ x :: rest := by
      intro w hw h1
      rcases h1 with h1 | h1
      · rcases hw u h1 with h2 | h2
        · exact Or.inl h2
        · exact Or.inr (by simp [h2])
      · exact Or.inr (List.mem_cons_of_mem _ h1)
    by_cases hover : (useUtxos ++ [x]).length > cap
    · simp only [hover, decide_True, if_true] at h
      split at h
      · exact hfin _ hdrop (Or.inl h)
      · exact hfin _ hdrop (ih _ _ h)
    · simp only [hover, decide_False, Bool.false_eq_true, if_false] at h
      split at h
      · exact hfin _ happ (Or.inl h)
      · exact hfin _ happ (ih _ _ h)

/-- Every output the shared selection returns is one of the outputs it was given. -/
theorem selectUtxos_mem (utxos useUtxos : List SafeUtxo) (target : Int)
    (h : selectUtxos utxos target = .ok useUtxos) (u : SafeUtxo) (hu : u ∈ useUtxos) :
    u ∈ utxos := by
  simp only [selectUtxos] at h
  split at h
  · cases h
  · cases h
    rcases selectLoop_mem _ _ _ u _ _ _ hu with h1 | h1
    · cases h1
    · exact (mem_sortByAmount utxos u).mp h1

/-- C14: for every listing, the in-place removal loop of `TransferOne` leaves exactly what
a fresh filtered copy of the listing holds: the outputs that carry no inscription
identifier, each once and in their original order.  Hence every output `TransferOne`
selects is a listed output without inscription. -/
theorem removeInscriptions_eq_freshFilteredCopy (utxos : List SafeUtxo) :
    removeInscriptions utxos 0 = freshFilteredCopy utxos ∧
    removeInscriptions utxos 0 = utxos.filter (fun u => !u.InscriptionHash.HasValue) ∧
    (∀ (amount : Int) (useUtxos : List SafeUtxo),
      TransferOne.selectUtxos utxos amount = .ok useUtxos →
      ∀ u ∈ useUtxos, u ∈ utxos ∧ u.InscriptionHash.HasValue = false) := by
  refine ⟨?_, removeInscriptions_eq_filter utxos, ?_⟩
  · rw [removeInscriptions_eq_filter, freshFilteredCopy_eq_filter]
  · intro amount useUtxos h u hu
    rw [TransferOne_selectUtxos_eq] at h
    split at h
    · cases h
    · have hmem := selectUtxos_mem _ _ _ h u hu
      have := List.mem_filter.mp hmem
      exact ⟨this.1, by simpa [noInscription] using this.2⟩

/-! ## The identifiers of `GenUuidFromStrings` -/

set_option maxRecDepth 1000000 in
/-- C13 fails on the code.  The cap-2 instance of the loop on the amounts 1, 2, 5, 10 with
target 7 does end with the window of 2 and 5 and the running sum 7: its only eviction
drops `utxos[0]`.  But the eviction always subtracts `utxos[0].Amount`: with target 100
the same instance ends with the window of 5 and 10 and the running sum 16, not 15.
With the cap of the source, 255, on the ascending listing of 257 plain outputs with the
amounts 1 to 257 and target 33151, the loop of `TransferOne` and `TransferMany` ends its
last iteration with `useAmount = 33151` and a window that adds up to 33150. -/
theorem selectLoop_running_sum :
    selectLoop 2 exampleListing 7 exampleListing 0 []
      = (7, [⟨"utxo-b", 2, Hash.zero⟩, ⟨"utxo-c", 5, Hash.zero⟩]) ∧
    selectLoop 2 exampleListing 100 exampleListing 0 []
      = (16, [⟨"utxo-c", 5, Hash.zero⟩, ⟨"utxo-d", 10, Hash.zero⟩]) ∧
    sortByAmount (ascendingListing 257) = ascendingListing 257 ∧
    selectLoop MAX_UTXO_NUM (ascendingListing 257) 33151 (ascendingListing 257) 0 []
      = (33151, (ascendingListing 257).drop 2) ∧
    sumAmount ((ascendingListing 257).drop 2) = 33150 := by
  refine ⟨by decide, by decide, by decide, by decide, by decide⟩

/-! ## Stepping through a method body -/

/-- A sequence returns normally only when its first part did, and then the rest ran from
the world the first part left. -/
theorem bind_ok {σ α β : Type} {p : Prog σ α} {f : α → Prog σ β} {w w2 : World σ} {b : β}
    (h : (p >>= f) w = (.ok b, w2)) :
    ∃ (a : α) (w1 : World σ), p w = (.ok a, w1) ∧ f a w1 = (.ok b, w2) := by
  change Prog.bind p f w = _ at h
  unfold Prog.bind at h
  rcases hp : p w with ⟨o, w1⟩
  rw [hp] at h
  cases o with
  | ok a => exact ⟨a, w1, rfl, h⟩
  | err e => cases h
  | panicked => cases h
  | unfinished => cases h

/-- A ledger call that returns normally has recorded its event and updated the state. -/
theorem call_ok {σ α : Type} {ev : Event} {f : σ → Except String α × σ} {w w1 : World σ}
    {a : α} (h : call ev f w = (.ok a, w1)) :
    f w.ledger = (.ok a, w1.ledger) ∧ w1.trace = w.trace ++ [ev] := by
  simp only [call] at h
  rcases hf : f w.ledger with ⟨r, s⟩
  rw [hf] at h
  cases r with
  | ok a1 =>
    simp only [Prod.mk.injEq, Outcome.ok.injEq] at h
    obtain ⟨h1, h2⟩ := h
    subst h1
    subst h2
    exact ⟨rfl, rfl⟩
  | error msg => simp at h

/-- A ledger call whose error is discarded records its event. -/
theorem callIgnoringError_trace {σ α : Type} (ev : Event)
    (f : σ → Except String (List α) × σ) (w : World σ) :
    ∃ l, callIgnoringError ev f w = (.ok l, ⟨(f w.ledger).2, w.trace ++ [ev]⟩) := by
  simp only [callIgnoringError]
  cases (f w.ledger).1 with
  | ok a => exact ⟨a, rfl⟩
  | error msg => exact ⟨[], rfl⟩

/-- A function of the SDK that returns normally leaves the world as it was. -/
theorem lift_ok {σ α : Type} {r : Except String α} {w w1 : World σ} {a : α}
    (h : (lift r : Prog σ α) w = (.ok a, w1)) : r = .ok a ∧ w1 = w := by
  simp only [lift] at h
  cases r with
  | ok a1 =>
    simp only [Prod.mk.injEq, Outcome.ok.injEq] at h
    exact ⟨by rw [h.1], h.2.symm⟩
  | error msg => simp at h

/-- Steps 2 to 6, when they return a result, have called `MakeTransaction`,
`SafeCreateTransactionRequest`, `SafeSubmitTransactionRequest` and
`SafeReadTransactionRequest` in this order, the last three under the request
identifier, and the result is what the read returned. -/
theorem buildAndSubmit_ok {σ τ : Type} (c : Client σ τ) (b : SafeTransactionBuilder)
    (outputs : List TransactionOutput) (requestId : String) (w w1 : World σ)
    (r : SafeTransactionRequest)
    (h : buildAndSubmit c b outputs requestId w = (.ok r, w1)) :
    ∃ (raw signedRaw : String) (s : σ),
      w1.trace = w.trace ++
        [.MakeTransaction b outputs, .SafeCreateTransactionRequest ⟨requestId, raw⟩,
         .SafeSubmitTransactionRequest ⟨requestId, signedRaw⟩,
         .SafeReadTransactionRequest requestId] ∧
      c.SafeReadTransactionRequest requestId s = (.ok r, w1.ledger) := by
  unfold buildAndSubmit at h
  obtain ⟨tx, wa, h1, h⟩ := bind_ok h
  obtain ⟨raw, wb, h2, h⟩ := bind_ok h
  obtain ⟨request, wc, h3, h⟩ := bind_ok h
  obtain ⟨tx1, wd, h4, h⟩ := bind_ok h
  obtain ⟨signedRaw, we, h5, h⟩ := bind_ok h
  obtain ⟨x, wf, h6, h⟩ := bind_ok h
  have t1 := (call_ok h1).2
  have t2 := (lift_ok h2).2
  have t3 := (call_ok h3).2
  have t4 := (lift_ok h4).2
  have t5 := (lift_ok h5).2
  have t6 := (call_ok h6).2
  have t7 := call_ok h
  refine ⟨raw, signedRaw, wf.ledger, ?_, t7.1⟩
  rw [t7.2, t6, t5, t4, t3, t2, t1]
  simp

/-! ## What a method body adds to the trace -/

/-- A plain return adds nothing. -/
theorem emitsOnly_pure {σ α : Type} (P : Event → Prop) (a : α) :
    EmitsOnly P (pure a : Prog σ α) :=
  fun w => ⟨[], (List.append_nil w.trace).symm, by simp⟩

/-- Returning an error adds nothing. -/
theorem emitsOnly_fail {σ α : Type} (P : Event → Prop) (e : Error) :
    EmitsOnly P (fail e : Prog σ α) :=
  fun w => ⟨[], (List.append_nil w.trace).symm, by simp⟩

/-- A panic adds nothing. -/
theorem emitsOnly_panic {σ α : Type} (P : Event → Prop) :
    EmitsOnly P (panic : Prog σ α) :=
  fun w => ⟨[], (List.append_nil w.trace).symm, by simp⟩

/-- Drawing a trace identifier adds nothing. -/
theorem emitsOnly_randomTraceID {σ τ : Type} (P : Event → Prop) (c : Client σ τ) :
    EmitsOnly P (randomTraceID c) :=
  fun w => ⟨[], (List.append_nil w.trace).symm, by simp⟩

/-- A function of the SDK adds nothing. -/
theorem emitsOnly_lift {σ α : Type} (P : Event → Prop) (r : Except String α) :
    EmitsOnly P (lift r : Prog σ α) := by
  intro w
  refine ⟨[], ?_, by simp⟩
  simp only [lift]
  cases r <;> simp

/-- A sequence adds what its parts add. -/
theorem emitsOnly_bind {σ α β : Type} {P : Event → Prop} {p : Prog σ α}
    {f : α → Prog σ β} (hp : EmitsOnly P p) (hf : ∀ a, EmitsOnly P (f a)) :
    EmitsOnly P (p >>= f) := by
  intro w
  obtain ⟨e1, h1, hP1⟩ := hp w
  change ∃ evs, (Prog.bind p f w).2.trace = _ ∧ _
  unfold Prog.bind
  rcases hpw : p w with ⟨o, w1⟩
  rw [hpw] at h1
  simp only at h1
  cases o with
  | ok a =>
    obtain ⟨e2, h2, hP2⟩ := hf a w1
    refine ⟨e1 ++ e2, ?_, ?_⟩
    · simp only []
      rw [h2, h1, List.append_assoc]
    · intro e he
      rcases List.mem_append.mp he with h | h
      · exact hP1 e h
      · exact hP2 e h
  | err e => exact ⟨e1, h1, hP1⟩
  | panicked => exact ⟨e1, h1, hP1⟩
  | unfinished => exact ⟨e1, h1, hP1⟩

/-- A ledger call adds its event. -/
theorem emitsOnly_call {σ α : Type} {P : Event → Prop} {ev : Event} (hev : P ev)
    (f : σ → Except String α × σ) : EmitsOnly P (call ev f) := by
  intro w
  refine ⟨[ev], ?_, by simpa using hev⟩
  simp only [call]
  cases (f w.ledger).1 <;> rfl

/-- A ledger call whose error is discarded adds its event. -/
theorem emitsOnly_callIgnoringError {σ α : Type} {P : Event → Prop} {ev : Event}
    (hev : P ev) (f : σ → Except String (List α) × σ) :
    EmitsOnly P (callIgnoringError ev f) := by
  intro w
  refine ⟨[ev], ?_, by simpa using hev⟩
  simp only [callIgnoringError]
  cases (f w.ledger).1 <;> rfl

/-- Locking around a body adds `Lock`, what the body adds, and `Unlock` unless the body
is still running. -/
theorem emitsOnly_withLock {σ α : Type} {P : Event → Prop} {body : Prog σ α}
    (hl : P .Lock) (hu : P .Unlock) (hb : EmitsOnly P body) :
    EmitsOnly P (withLock body) := by
  intro w
  obtain ⟨e1, h1, hP1⟩ := hb ⟨w.ledger, w.trace ++ [.Lock]⟩
  simp only [withLock]
  split
  · rename_i w1 heq
    rw [heq] at h1
    refine ⟨.Lock :: e1, ?_, ?_⟩
    · simp only [] at h1 ⊢
      rw [h1]
      simp
    · intro e he
      rcases List.mem_cons.mp he with h | h
      · rw [h]; exact hl
      · exact hP1 e h
  · rename_i r w1 _ heq
    rw [heq] at h1
    refine ⟨.Lock :: e1 ++ [.Unlock], ?_, ?_⟩
    · simp only [] at h1 ⊢
      rw [h1]
      simp
    · intro e he
      simp only [List.cons_append, List.mem_cons, List.mem_append, List.mem_singleton,
        List.not_mem_nil, or_false] at he
      rcases he with h | h | h
      · rw [h]; exact hl
      · exact hP1 e h
      · rw [h]; exact hu

/-- Steps 2 to 6 add ledger calls only. -/
theorem emitsOnly_buildAndSubmit {σ τ : Type} {P : Event → Prop}
    (hP : ∀ e : Event, e ≠ .Lock → e ≠ .Unlock → P e) (c : Client σ τ)
    (b : SafeTransactionBuilder) (outputs : List TransactionOutput) (requestId : String) :
    EmitsOnly P (buildAndSubmit c b outputs requestId) := by
  unfold buildAndSubmit
  refine emitsOnly_bind (emitsOnly_call (hP _ (by simp) (by simp)) _) fun tx => ?_
  refine emitsOnly_bind (emitsOnly_lift _ _) fun raw => ?_
  refine emitsOnly_bind (emitsOnly_call (hP _ (by simp) (by simp)) _) fun request => ?_
  refine emitsOnly_bind (emitsOnly_lift _ _) fun tx1 => ?_
  refine emitsOnly_bind (emitsOnly_lift _ _) fun signedRaw => ?_
  exact emitsOnly_bind (emitsOnly_call (hP _ (by simp) (by simp)) _) fun _ =>
    emitsOnly_call (hP _ (by simp) (by simp)) _

/-- The read loop of the aggregation adds ledger calls only. -/
theorem emitsOnly_readLoop {σ τ : Type} {P : Event → Prop}
    (hP : ∀ e : Event, e ≠ .Lock → e ≠ .Unlock → P e) (c : Client σ τ)
    (requestId : String) (retryTimes : Nat) :
    EmitsOnly P (SyncArrgegateUtxos.readLoop c requestId retryTimes) := by
  unfold SyncArrgegateUtxos.readLoop
  split
  · exact emitsOnly_pure _ _
  · exact emitsOnly_bind (emitsOnly_call (hP _ (by simp) (by simp)) _)
      fun _ => emitsOnly_pure _ _

/-- The listing loop of `TransferOne` adds listing calls only. -/
theorem emitsOnly_relistOne {σ τ : Type} {P : Event → Prop}
    (hP : ∀ e : Event, e ≠ .Lock → e ≠ .Unlock → P e) (c : Client σ τ)
    (assetId : String) (n : Nat) :
    ∀ utxos, EmitsOnly P (TransferOne.relist c assetId n utxos) := by
  induction n with
  | zero => intro utxos; exact emitsOnly_pure _ _
  | succ n ih =>
    intro utxos
    unfold TransferOne.relist
    split
    · refine emitsOnly_bind (emitsOnly_callIgnoringError (hP _ (by simp) (by simp)) _)
        fun l => ?_
      split
      · exact emitsOnly_pure _ _
      · exact ih l
    · exact emitsOnly_pure _ _

/-- The aggregation loop, when it returns a listing, has made the listing call last. -/
theorem syncLoop_ok {σ τ : Type} (c : Client σ τ) (assetId : String) :
    ∀ (fuel : Nat) (w w1 : World σ) (utxos : List SafeUtxo),
      SyncArrgegateUtxos.loop c assetId fuel w = (.ok utxos, w1) →
      ∃ t : List Event,
        w1.trace = w.trace ++ t ++ [.SafeListUtxos (listOption assetId)] := by
  intro fuel
  induction fuel with
  | zero => intro w w1 utxos h; cases h
  | succ fuel ih =>
    intro w w1 utxos h
    unfold SyncArrgegateUtxos.loop at h
    obtain ⟨requestId, wa, h0, h⟩ := bind_ok h
    have ta : wa.trace = w.trace := by
      simp only [randomTraceID, Prod.mk.injEq, Outcome.ok.injEq] at h0
      rw [← h0.2]
    obtain ⟨listed, wb, h1, h⟩ := bind_ok h
    have tb := (call_ok h1).2
    split at h
    · simp only [pure, Prod.mk.injEq, Outcome.ok.injEq] at h
      refine ⟨[], ?_⟩
      rw [← h.2, tb, ta]
      simp
    · dsimp only at h
      obtain ⟨tx, wc, h2, h⟩ := bind_ok h
      obtain ⟨raw, wd, h3, h⟩ := bind_ok h
      obtain ⟨request, we, h4, h⟩ := bind_ok h
      obtain ⟨tx1, wf, h5, h⟩ := bind_ok h
      obtain ⟨signedRaw, wg, h6, h⟩ := bind_ok h
      obtain ⟨x, wh, h7, h⟩ := bind_ok h
      obtain ⟨y, wi, h8, h⟩ := bind_ok h
      obtain ⟨evs, hevs, _⟩ :=
        emitsOnly_readLoop (P := fun _ => True) (fun _ _ _ => trivial) c requestId 0 wh
      rw [h8] at hevs
      simp only at hevs
      obtain ⟨t, ht⟩ := ih wi w1 utxos h
      have tc := (call_ok h2).2
      have td := (lift_ok h3).2
      have te := (call_ok h4).2
      have tf := (lift_ok h5).2
      have tg := (lift_ok h6).2
      have th := (call_ok h7).2
      have hwi : wi.trace = wh.trace ++ evs := hevs
      rw [th, tg, tf, te, td, tc, tb, ta] at hwi
      simp only [List.append_assoc] at hwi
      obtain ⟨m, hm⟩ : ∃ m, wi.trace = w.trace ++ m := ⟨_, hwi⟩
      refine ⟨m ++ t, ?_⟩
      rw [ht, hm]
      simp only [List.append_assoc]

/-- Method `SyncArrgegateUtxos`, when it returns a listing, has locked first, and has made
the listing call last and then unlocked. -/
theorem SyncArrgegateUtxos_ok {σ τ : Type} (c : Client σ τ) (fuel : Nat)
    (assetId : String) (w w1 : World σ) (utxos : List SafeUtxo)
    (h : SyncArrgegateUtxos c fuel assetId w = (.ok utxos, w1)) :
    ∃ t : List Event,
      w1.trace = w.trace ++ .Lock :: t ++ [.SafeListUtxos (listOption assetId), .Unlock] := by
  simp only [SyncArrgegateUtxos, withLock] at h
  split at h
  · cases h
  · rename_i r w2 _ heq
    simp only [Prod.mk.injEq] at h
    obtain ⟨hr, hw⟩ := h
    subst hr
    obtain ⟨t, ht⟩ := syncLoop_ok c assetId fuel _ _ _ heq
    refine ⟨t, ?_⟩
    rw [← hw]
    simp only [ht]
    simp

/-- Method `TransferOne` after an aggregation that returned a listing that is not empty:
the rest runs under a second lock, from the check of the listing on. -/
theorem TransferOne_after_sync {σ τ : Type} (c : Client σ τ) (fuel : Nat)
    (req : TransferOneRequest) (w0 w1 : World σ) (utxos : List SafeUtxo)
    (hsync : SyncArrgegateUtxos c fuel req.AssetId w0 = (.ok utxos, w1))
    (hne : utxos ≠ []) :
    TransferOne c fuel req w0 = withLock (TransferOne.afterListing c req utxos) w1 := by
  have hlen : ¬ utxos.length = 0 := fun h => hne (List.length_eq_zero.mp h)
  simp only [TransferOne, bind, Prog.bind, hsync, withLock, TransferOne.relist,
    if_neg hlen, pure]

/-- Method `TransferMany` after an aggregation that returned a listing that is not empty:
the rest runs under a second lock, from the check of the listing on. -/
theorem TransferMany_after_sync {σ τ : Type} (c : Client σ τ) (fuel : Nat)
    (req : TransferManyRequest) (w0 w1 : World σ) (utxos : List SafeUtxo)
    (hle : req.MemberAmount.length ≤ 255)
    (hsync : SyncArrgegateUtxos c fuel req.AssetId w0 = (.ok utxos, w1))
    (hne : utxos ≠ []) :
    TransferMany c fuel req w0 = withLock (TransferMany.afterListing c req utxos) w1 := by
  have hlen : ¬ utxos.length = 0 := fun h => hne (List.length_eq_zero.mp h)
  have hle1 : ¬ req.MemberAmount.length > MAX_UTXO_NUM := by
    unfold MAX_UTXO_NUM; omega
  simp only [TransferMany, if_neg hle1, bind, Prog.bind, hsync, withLock,
    TransferMany.relist, if_neg hlen, pure]

/-- A ledger call followed by a rest that adds events satisfying `P`: the trace grows by
the event of the call and then by such events. -/
theorem emitsOnly_after_call {σ α β : Type} {P : Event → Prop} (ev : Event)
    (f : σ → Except String α × σ) {g : α → Prog σ β} (hg : ∀ a, EmitsOnly P (g a))
    (w : World σ) :
    ∃ evs : List Event,
      ((call ev f >>= g) w).2.trace = w.trace ++ ev :: evs ∧ ∀ e ∈ evs, P e := by
  change ∃ evs, (Prog.bind (call ev f) g w).2.trace = _ ∧ _
  unfold Prog.bind
  simp only [call]
  cases (f w.ledger).1 with
  | ok a =>
    obtain ⟨evs, h, hP⟩ := hg a ⟨(f w.ledger).2, w.trace ++ [ev]⟩
    refine ⟨evs, ?_, hP⟩
    simp only []
    rw [h]
    simp
  | error msg => exact ⟨[], rfl, by simp⟩

/-! ## The transfer lock -/

/-- C12 fails on the code.  `InscriptionTransfer` never takes the lock: from any world its
first event is the listing call and no event it adds is a `Lock` or an `Unlock`, so its
listing, selection and submission run with the lock not held.  `TransferOne` and
`TransferMany` take the listing that feeds the selection from `SyncArrgegateUtxos`,
whose trace ends with that listing call followed by `Unlock`; selection and submission
then run under a second `Lock`, so the lock is released in between. -/
theorem transfer_lock_not_held {σ τ : Type} (c : Client σ τ) :
    (∀ (req : InscriptionTransferRequest) (w : World σ),
      ∃ evs : List Event,
        (InscriptionTransfer c req w).2.trace
          = w.trace ++ .SafeListUtxos (listOption500 req.AssetId) :: evs ∧
        ∀ e ∈ evs, e ≠ .Lock ∧ e ≠ .Unlock) ∧
    (∀ (fuel : Nat) (req : TransferOneRequest) (w0 w1 : World σ) (utxos : List SafeUtxo),
      SyncArrgegateUtxos c fuel req.AssetId w0 = (.ok utxos, w1) → utxos ≠ [] →
      (∃ t : List Event, w1.trace
        = w0.trace ++ .Lock :: t ++ [.SafeListUtxos (listOption req.AssetId), .Unlock]) ∧
      TransferOne c fuel req w0 = withLock (TransferOne.afterListing c req utxos) w1) ∧
    (∀ (fuel : Nat) (req : TransferManyRequest) (w0 w1 : World σ) (utxos : List SafeUtxo),
      req.MemberAmount.length ≤ 255 →
      SyncArrgegateUtxos c fuel req.AssetId w0 = (.ok utxos, w1) → utxos ≠ [] →
      (∃ t : List Event, w1.trace
        = w0.trace ++ .Lock :: t ++ [.SafeListUtxos (listOption req.AssetId), .Unlock]) ∧
      TransferMany c fuel req w0 = withLock (TransferMany.afterListing c req utxos) w1) := by
  refine ⟨?_, ?_, ?_⟩
  · intro req w
    unfold InscriptionTransfer
    refine emitsOnly_after_call _ _ (fun utxos => ?_) w
    split
    · exact emitsOnly_panic _
    · split
      · exact emitsOnly_fail _ _
      · split
        · exact emitsOnly_fail _ _
        · exact emitsOnly_buildAndSubmit (fun e h1 h2 => ⟨h1, h2⟩) _ _ _ _
  · intro fuel req w0 w1 utxos hsync hne
    exact ⟨SyncArrgegateUtxos_ok c fuel req.AssetId w0 w1 utxos hsync,
      TransferOne_after_sync c fuel req w0 w1 utxos hsync hne⟩
  · intro fuel req w0 w1 utxos hle hsync hne
    exact ⟨SyncArrgegateUtxos_ok c fuel req.AssetId w0 w1 utxos hsync,
      TransferMany_after_sync c fuel req w0 w1 utxos hle hsync hne⟩

/-- C12 at concrete inputs: the trace of `InscriptionTransfer` for the collectible, the
only output listed, holds no `Lock`; the trace of `TransferOne` for 5 out of
`smallListing` unlocks after the listing and locks again before `MakeTransaction`. -/
theorem transfer_lock_not_held_witness :
    (InscriptionTransfer (fixedClient [collectible]) collectibleRequest ⟨0, []⟩).2.trace
      = [.SafeListUtxos (listOption500 "asset-1"),
         .MakeTransaction ⟨[collectible], "memo"⟩
           [⟨RequireNewMixAddress ["member-1"] 1, 100⟩],
         .SafeCreateTransactionRequest ⟨"req-1", "tx"⟩,
         .SafeSubmitTransactionRequest ⟨"req-1", "tx"⟩,
         .SafeReadTransactionRequest "req-1"] ∧
    TransferOne (fixedClient smallListing) 1 sampleRequest ⟨0, []⟩
      = withLock (TransferOne.afterListing (fixedClient smallListing) sampleRequest
          smallListing)
          ⟨1, [.Lock, .SafeListUtxos (listOption "asset-1"), .Unlock]⟩ ∧
    (TransferOne (fixedClient smallListing) 1 sampleRequest ⟨0, []⟩).2.trace
      = [.Lock, .SafeListUtxos (listOption "asset-1"), .Unlock, .Lock,
         .MakeTransaction ⟨smallListing.take 2, "memo"⟩
           [⟨RequireNewMixAddress ["member-1"] 1, 5⟩],
         .SafeCreateTransactionRequest ⟨"req-1", "tx"⟩,
         .SafeSubmitTransactionRequest ⟨"req-1", "tx"⟩,
         .SafeReadTransactionRequest "req-1", .Unlock] := by
  refine ⟨by decide,
    ((transfer_lock_not_held (fixedClient smallListing)).2.1 1 sampleRequest ⟨0, []⟩
      ⟨1, [.Lock, .SafeListUtxos (listOption "asset-1"), .Unlock]⟩ smallListing
      (by decide) (by decide)).2, ?_⟩
  simp only [TransferOne, TransferOne.afterListing, TransferOne_selectUtxos_eq]
  decide

/-! ## The listing loop of `TransferOne` -/

/-- The listing loop of `TransferOne` adds only listing calls with limit 500. -/
theorem relistOne_lists_only {σ τ : Type} (c : Client σ τ) (assetId : String) (n : Nat) :
    ∀ utxos, EmitsOnly (fun e => e = .SafeListUtxos (listOption500 assetId))
      (TransferOne.relist c assetId n utxos) := by
  induction n with
  | zero => intro utxos; exact emitsOnly_pure _ _
  | succ n ih =>
    intro utxos
    unfold TransferOne.relist
    split
    · refine emitsOnly_bind
        (emitsOnly_callIgnoringError (P := fun e => e = .SafeListUtxos (listOption500 assetId))
          rfl _) fun l => ?_
      split
      · exact emitsOnly_pure _ _
      · exact ih l
    · exact emitsOnly_pure _ _

/-- The listing loop of `TransferOne` always ends with a listing: it returns no error,
does not panic and is bounded. -/
theorem relistOne_returns {σ τ : Type} (c : Client σ τ) (assetId : String) (n : Nat) :
    ∀ (utxos : List SafeUtxo) (w : World σ),
      ∃ (listed : List SafeUtxo) (w3 : World σ),
        TransferOne.relist c assetId n utxos w = (.ok listed, w3) := by
  induction n with
  | zero => intro utxos w; exact ⟨utxos, w, rfl⟩
  | succ n ih =>
    intro utxos w
    unfold TransferOne.relist
    split
    · obtain ⟨l, hl⟩ := callIgnoringError_trace (.SafeListUtxos (listOption500 assetId))
        (c.SafeListUtxos (listOption500 assetId)) w
      change ∃ listed w3, Prog.bind _ _ w = _
      unfold Prog.bind
      rw [hl]
      simp only []
      split
      · exact ⟨l, _, rfl⟩
      · exact ih l _
    · exact ⟨utxos, w, rfl⟩

/-! ## Not enough outputs in `TransferOne` -/

/-- C7: let `utxos` be a listing whose amounts are not negative and whose outputs without
inscription add up to less than the requested amount.  Then the selection of
`TransferOne` fails with `ErrNotEnoughUtxos`, and from the check of the listing on
`TransferOne` makes no call on the ledger client: ledger state and trace are left as
they were.  For the whole method, on every path to that check: whenever the aggregation
returns a listing and the listing loop that follows it (which always ends with a
listing) ends with `utxos`, be it the listing of the aggregation or a listing made
again after an empty one, `TransferOne` returns `ErrNotEnoughUtxos`, and after the
aggregation the trace holds only `Lock`, the listing calls of the loop and `Unlock`, so
no transaction is built. -/
theorem TransferOne_not_enough_utxos {σ τ : Type} (c : Client σ τ)
    (req : TransferOneRequest) (utxos : List SafeUtxo) (w : World σ)
    (hnonneg : ∀ u ∈ utxos, 0 ≤ u.Amount)
    (hsum : sumAmount (utxos.filter fun u => !u.InscriptionHash.HasValue) < req.Amount) :
    TransferOne.selectUtxos utxos req.Amount = .error .ErrNotEnoughUtxos ∧
    TransferOne.afterListing c req utxos w = (.err .ErrNotEnoughUtxos, w) ∧
    (∀ (fuel : Nat) (w0 : World σ),
      SyncArrgegateUtxos c fuel req.AssetId w0 = (.ok utxos, w) → utxos ≠ [] →
      TransferOne c fuel req w0
        = (.err .ErrNotEnoughUtxos, ⟨w.ledger, w.trace ++ [.Lock, .Unlock]⟩)) ∧
    (∀ (fuel : Nat) (w0 w1 w3 : World σ) (aggregated : List SafeUtxo),
      SyncArrgegateUtxos c fuel req.AssetId w0 = (.ok aggregated, w1) →
      TransferOne.relist c req.AssetId 3 aggregated ⟨w1.ledger, w1.trace ++ [.Lock]⟩
        = (.ok utxos, w3) →
      TransferOne c fuel req w0
        = (.err .ErrNotEnoughUtxos, ⟨w3.ledger, w3.trace ++ [.Unlock]⟩) ∧
      ∃ relisted : List Event,
        w3.trace = w1.trace ++ .Lock :: relisted ∧
        ∀ e ∈ relisted, e = .SafeListUtxos (listOption500 req.AssetId)) ∧
    (∀ (aggregated : List SafeUtxo) (w1 : World σ),
      ∃ (listed : List SafeUtxo) (w3 : World σ),
        TransferOne.relist c req.AssetId 3 aggregated w1 = (.ok listed, w3)) := by
  have hsel : TransferOne.selectUtxos utxos req.Amount = .error .ErrNotEnoughUtxos := by
    rw [TransferOne_selectUtxos_eq]
    split
    · rfl
    · apply selectUtxos_not_enough
      · intro u hu
        exact hnonneg u (List.mem_of_mem_filter hu)
      · exact hsum
  have hafter : ∀ w1 : World σ,
      TransferOne.afterListing c req utxos w1 = (.err .ErrNotEnoughUtxos, w1) := by
    intro w1
    simp only [TransferOne.afterListing, hsel]
    rfl
  refine ⟨hsel, hafter w, ?_, ?_, relistOne_returns c req.AssetId 3⟩
  · intro fuel w0 hsync hne
    have hlen : ¬ utxos.length = 0 := by
      intro h
      exact hne (List.length_eq_zero.mp h)
    simp only [TransferOne, bind, Prog.bind, hsync, withLock, TransferOne.relist,
      if_neg hlen, pure, hafter, List.append_assoc, List.singleton_append]
  · intro fuel w0 w1 w3 aggregated hsync hrel
    constructor
    · simp only [TransferOne, bind, Prog.bind, hsync, withLock, hrel, hafter]
    · obtain ⟨evs, hevs, hP⟩ := relistOne_lists_only c req.AssetId 3 aggregated
        ⟨w1.ledger, w1.trace ++ [.Lock]⟩
      rw [hrel] at hevs
      refine ⟨evs, ?_, hP⟩
      simp only [] at hevs
      rw [hevs]
      simp

/-- C7 at concrete inputs, asked for 10 out of plain outputs of 3 and 4 (and a
collectible of 100): `TransferOne` fails with `ErrNotEnoughUtxos` and calls nothing
after the listing of the aggregation; and when the aggregation lists nothing and the
listing made again returns these outputs, it fails with `ErrNotEnoughUtxos` after that
listing, without a build call. -/
theorem TransferOne_not_enough_utxos_witness :
    TransferOne.afterListing (fixedClient smallListing)
        ⟨"req-1", "asset-1", "member-1", 10, "memo"⟩ smallListing
        ⟨1, [.Lock, .SafeListUtxos (listOption "asset-1"), .Unlock]⟩
      = (.err .ErrNotEnoughUtxos,
          ⟨1, [.Lock, .SafeListUtxos (listOption "asset-1"), .Unlock]⟩) ∧
    TransferOne (fixedClient smallListing) 1
        ⟨"req-1", "asset-1", "member-1", 10, "memo"⟩ ⟨0, []⟩
      = (.err .ErrNotEnoughUtxos,
          ⟨1, [.Lock, .SafeListUtxos (listOption "asset-1"), .Unlock, .Lock, .Unlock]⟩) ∧
    TransferOne (scriptedClient fun k => if k = 0 then [] else smallListing) 1
        ⟨"req-1", "asset-1", "member-1", 10, "memo"⟩ ⟨0, []⟩
      = (.err .ErrNotEnoughUtxos,
          ⟨2, [.Lock, .SafeListUtxos (listOption "asset-1"), .Unlock, .Lock,
               .SafeListUtxos (listOption500 "asset-1")] ++ [.Unlock]⟩) :=
  ⟨(TransferOne_not_enough_utxos (fixedClient smallListing)
      ⟨"req-1", "asset-1", "member-1", 10, "memo"⟩ smallListing
      ⟨1, [.Lock, .SafeListUtxos (listOption "asset-1"), .Unlock]⟩
      (by decide) (by decide)).2.1,
   (TransferOne_not_enough_utxos (fixedClient smallListing)
      ⟨"req-1", "asset-1", "member-1", 10, "memo"⟩ smallListing
      ⟨1, [.Lock, .SafeListUtxos (listOption "asset-1"), .Unlock]⟩
      (by decide) (by decide)).2.2.1 1 ⟨0, []⟩ (by decide) (by decide),
   ((TransferOne_not_enough_utxos (scriptedClient fun k => if k = 0 then [] else smallListing)
      ⟨"req-1", "asset-1", "member-1", 10, "memo"⟩ smallListing ⟨0, []⟩
      (by decide) (by decide)).2.2.2.1 1 ⟨0, []⟩
      ⟨1, [.Lock, .SafeListUtxos (listOption "asset-1"), .Unlock]⟩
      ⟨2, [.Lock, .SafeListUtxos (listOption "asset-1"), .Unlock, .Lock,
           .SafeListUtxos (listOption500 "asset-1")]⟩
      [] (by decide) (by decide)).1⟩

/-! ## Invoking `TransferOne` again -/

/-- C11 as amended: whatever the ledger has confirmed, an invocation of `TransferOne`
that returns a result has run the whole flow.  The aggregation returned a listing, its
trace ending with the listing call and `Unlock`; under the second `Lock` the listing
loop added listing calls only and ended with the listing `listed`; the selection of
`TransferOne` on `listed` for the requested amount succeeded with the outputs
`useUtxos`; then `MakeTransaction` was called on exactly `useUtxos` for one output of
the requested amount to the member, `SafeCreateTransactionRequest` and
`SafeSubmitTransactionRequest` were called under the request identifier, and
`SafeReadTransactionRequest` was called, followed by `Unlock`; the result is what that
read returned. -/
theorem TransferOne_resubmits {σ τ : Type} (c : Client σ τ) (fuel : Nat)
    (req : TransferOneRequest) (w wf : World σ) (r : SafeTransactionRequest)
    (h : TransferOne c fuel req w = (.ok r, wf)) :
    ∃ (aggregated listed useUtxos : List SafeUtxo) (w1 w3 : World σ)
      (raw signedRaw : String) (s : σ) (t1 relisted : List Event),
      SyncArrgegateUtxos c fuel req.AssetId w = (.ok aggregated, w1) ∧
      w1.trace
        = w.trace ++ .Lock :: t1 ++ [.SafeListUtxos (listOption req.AssetId), .Unlock] ∧
      TransferOne.relist c req.AssetId 3 aggregated ⟨w1.ledger, w1.trace ++ [.Lock]⟩
        = (.ok listed, w3) ∧
      w3.trace = w1.trace ++ .Lock :: relisted ∧
      (∀ e ∈ relisted, e = .SafeListUtxos (listOption500 req.AssetId)) ∧
      TransferOne.selectUtxos listed req.Amount = .ok useUtxos ∧
      wf.trace = w3.trace ++
        [.MakeTransaction ⟨useUtxos, req.Memo⟩
           [⟨RequireNewMixAddress [req.Member] 1, req.Amount⟩],
         .SafeCreateTransactionRequest ⟨req.RequestId, raw⟩,
         .SafeSubmitTransactionRequest ⟨req.RequestId, signedRaw⟩,
         .SafeReadTransactionRequest req.RequestId, .Unlock] ∧
      c.SafeReadTransactionRequest req.RequestId s = (.ok r, wf.ledger) := by
  unfold TransferOne at h
  obtain ⟨aggregated, w1, hsync, h⟩ := bind_ok h
  obtain ⟨t1, ht1⟩ := SyncArrgegateUtxos_ok c fuel req.AssetId w w1 aggregated hsync
  simp only [withLock] at h
  split at h
  · cases h
  · rename_i r1 w2 _ heq
    simp only [Prod.mk.injEq] at h
    obtain ⟨hr, hw⟩ := h
    subst hr
    obtain ⟨listed, w3, hrel, hafter⟩ := bind_ok heq
    obtain ⟨e2, he2, hP2⟩ := relistOne_lists_only c req.AssetId 3 aggregated
      ⟨w1.ledger, w1.trace ++ [.Lock]⟩
    rw [hrel] at he2
    simp only at he2
    unfold TransferOne.afterListing at hafter
    rcases hsel : TransferOne.selectUtxos listed req.Amount with e | useUtxos
    · rw [hsel] at hafter
      cases hafter
    · have hsel1 := hsel
      rw [hsel] at hafter
      simp only at hafter
      obtain ⟨raw, signedRaw, s, htr, hread⟩ := buildAndSubmit_ok _ _ _ _ _ _ _ hafter
      refine ⟨aggregated, listed, useUtxos, w1, w3, raw, signedRaw, s, t1, e2,
        hsync, ht1, hrel, ?_, hP2, hsel1, ?_, ?_⟩
      · rw [he2]
        simp
      · rw [← hw]
        simp only [htr]
        simp [NewSafeTransactionBuilder]
      · rw [← hw]
        exact hread

/-- C11 as amended, at a concrete input: on a ledger that has already confirmed the
request and still lists plain outputs of 3 and 4, the invocation selects these two,
calls `MakeTransaction`, create and submit again, and returns the confirmed result. -/
theorem TransferOne_resubmits_witness :
    ∃ (aggregated listed useUtxos : List SafeUtxo) (w1 w3 : World LedgerState)
      (raw signedRaw : String) (s : LedgerState) (t1 relisted : List Event),
      SyncArrgegateUtxos ledgerClient 1 repeatRequest.AssetId ⟨confirmedLedger, []⟩
        = (.ok aggregated, w1) ∧
      w1.trace
        = [] ++ .Lock :: t1 ++ [.SafeListUtxos (listOption repeatRequest.AssetId), .Unlock] ∧
      TransferOne.relist ledgerClient repeatRequest.AssetId 3 aggregated
          ⟨w1.ledger, w1.trace ++ [.Lock]⟩
        = (.ok listed, w3) ∧
      w3.trace = w1.trace ++ .Lock :: relisted ∧
      (∀ e ∈ relisted, e = .SafeListUtxos (listOption500 repeatRequest.AssetId)) ∧
      TransferOne.selectUtxos listed repeatRequest.Amount = .ok useUtxos ∧
      [Event.Lock, .SafeListUtxos (listOption repeatRequest.AssetId), .Unlock, .Lock,
        .MakeTransaction ⟨smallListing.take 2, "memo"⟩
          [⟨RequireNewMixAddress ["a1ce2967-a534-417d-bf12-c86571e4eefa"] 1, 5⟩],
        .SafeCreateTransactionRequest ⟨"3f0c1b9a-5d2e-4c7b-8a61-0e9d4b2f6c15", "tx"⟩,
        .SafeSubmitTransactionRequest ⟨"3f0c1b9a-5d2e-4c7b-8a61-0e9d4b2f6c15", "tx"⟩,
        .SafeReadTransactionRequest "3f0c1b9a-5d2e-4c7b-8a61-0e9d4b2f6c15", .Unlock]
        = w3.trace ++
          [.MakeTransaction ⟨useUtxos, repeatRequest.Memo⟩
             [⟨RequireNewMixAddress [repeatRequest.Member] 1, repeatRequest.Amount⟩],
           .SafeCreateTransactionRequest ⟨repeatRequest.RequestId, raw⟩,
           .SafeSubmitTransactionRequest ⟨repeatRequest.RequestId, signedRaw⟩,
           .SafeReadTransactionRequest repeatRequest.RequestId, .Unlock] ∧
      ledgerClient.SafeReadTransactionRequest repeatRequest.RequestId s
        = (.ok sampleConfirmed, confirmedLedger) :=
  TransferOne_resubmits ledgerClient 1 repeatRequest ⟨confirmedLedger, []⟩
    ⟨confirmedLedger,
      [.Lock, .SafeListUtxos (listOption repeatRequest.AssetId), .Unlock, .Lock,
        .MakeTransaction ⟨smallListing.take 2, "memo"⟩
          [⟨RequireNewMixAddress ["a1ce2967-a534-417d-bf12-c86571e4eefa"] 1, 5⟩],
        .SafeCreateTransactionRequest ⟨"3f0c1b9a-5d2e-4c7b-8a61-0e9d4b2f6c15", "tx"⟩,
        .SafeSubmitTransactionRequest ⟨"3f0c1b9a-5d2e-4c7b-8a61-0e9d4b2f6c15", "tx"⟩,
        .SafeReadTransactionRequest "3f0c1b9a-5d2e-4c7b-8a61-0e9d4b2f6c15", .Unlock]⟩
    sampleConfirmed
    (by
      simp only [TransferOne, TransferOne.afterListing, TransferOne_selectUtxos_eq]
      decide)

/-- C11 fails on the code: `TransferOne` never asks the ledger whether the request is
already confirmed.  On a ledger that has confirmed the request and still lists the
outputs, invoking `TransferOne` for it again returns the confirmed result but adds a
`SafeCreateTransactionRequest` and a `SafeSubmitTransactionRequest` call to the trace;
on a ledger that has confirmed the request and lists no unspent output it returns
`ErrNotEnoughUtxos`, not the confirmed result. -/
theorem TransferOne_confirmed_request_counterexample :
    ledgerClient.SafeReadTransactionRequest repeatRequest.RequestId confirmedLedger
      = (.ok sampleConfirmed, confirmedLedger) ∧
    TransferOne ledgerClient 1 repeatRequest ⟨confirmedLedger, []⟩
      = (.ok sampleConfirmed,
         ⟨confirmedLedger,
          [.Lock, .SafeListUtxos (listOption "c94ac88f-4671-3976-b60a-09064f1811e8"),
           .Unlock, .Lock,
           .MakeTransaction ⟨smallListing.take 2, "memo"⟩
             [⟨RequireNewMixAddress ["a1ce2967-a534-417d-bf12-c86571e4eefa"] 1, 5⟩],
           .SafeCreateTransactionRequest ⟨"3f0c1b9a-5d2e-4c7b-8a61-0e9d4b2f6c15", "tx"⟩,
           .SafeSubmitTransactionRequest ⟨"3f0c1b9a-5d2e-4c7b-8a61-0e9d4b2f6c15", "tx"⟩,
           .SafeReadTransactionRequest "3f0c1b9a-5d2e-4c7b-8a61-0e9d4b2f6c15",
           .Unlock]⟩) ∧
    ledgerClient.SafeReadTransactionRequest repeatRequest.RequestId spentLedger
      = (.ok sampleConfirmed, spentLedger) ∧
    TransferOne ledgerClient 1 repeatRequest ⟨spentLedger, []⟩
      = (.err .ErrNotEnoughUtxos,
         ⟨spentLedger,
          [.Lock, .SafeListUtxos (listOption "c94ac88f-4671-3976-b60a-09064f1811e8"),
           .Unlock, .Lock,
           .SafeListUtxos (listOption500 "c94ac88f-4671-3976-b60a-09064f1811e8"),
           .SafeListUtxos (listOption500 "c94ac88f-4671-3976-b60a-09064f1811e8"),
           .SafeListUtxos (listOption500 "c94ac88f-4671-3976-b60a-09064f1811e8"),
           .Unlock]⟩) := by
  refine ⟨by decide, ?_, by decide, ?_⟩
  · simp only [TransferOne, TransferOne.afterListing, TransferOne_selectUtxos_eq]
    decide
  · simp only [TransferOne, TransferOne.afterListing, TransferOne_selectUtxos_eq]
    decide

end MixinKit
